import Mathlib

/-!
# cardinal-forms: `src/forms.js`

A shallow embedding of the validation, value-extraction and numeric-clamp code of
`src/forms.js`, together with the properties its specification states about them.

## The document model

`forms.js` works on a live DOM through the helper library `__` (double-u), which is an
external collaborator and is not part of this repository.  The model keeps exactly the
part of the DOM the code reads and writes:

* a document is a list of elements; an element's identity is its position in the list;
* elements are numbered in document (pre-order) order, so the parent of an element, when
  it has one, sits at a smaller position; a parent reference that does not point
  backwards is read as "no parent";
* a detached element (one that `remove()` took out of the tree) keeps its descendants and
  has no parent.

The helper calls are read with their usual DOM meaning: `find` is `querySelectorAll`
(descendants, document order), `closest` is `Element.closest` (the element itself, then
its ancestors), `hasClass`/`addClass`/`removeClass` on an empty set are `false`/no-ops,
`remove` detaches the element, `value()` of a set is the value of its first element.

`prepare` is the one function that inserts elements; it is embedded over a tree of nodes
(`DomNode`), introduced with it.
-/

namespace CardinalForms

/-! ## Elements and selectors -/

/-- A `File` of a file input; `path` is the filesystem path the shell exposes. -/
structure File where
  name : String
  path : String
deriving DecidableEq, Repr

/-- One DOM element: the properties `forms.js` reads or writes. -/
structure Element where
  /-- Lower-case tag name. -/
  tag : String
  /-- The class list. -/
  classes : List String
  /-- The attributes other than `class`. -/
  attrs : List (String × String)
  /-- The `value` property of a form control. -/
  value : String
  /-- The `files` property of a file input; `none` is `null`. -/
  files : Option (List File)
  /-- Position of the parent element, if attached to one. -/
  parent : Option Nat
  /-- The `blur` listeners, each named by the identity of its function object. -/
  blur : List Nat
deriving DecidableEq, Repr

/-- Build an element that has no files and no listeners. -/
def mkEl (tag : String) (classes : List String) (attrs : List (String × String))
    (value : String) (parent : Option Nat) : Element :=
  { tag := tag, classes := classes, attrs := attrs, value := value, files := none,
    parent := parent, blur := [] }

/-- A document: elements in document order, identified by position. -/
abbrev Dom := List Element

/-- Constant `const validationErrorClassName = 'validation-error'` (line 9). -/
def validationErrorClassName : String := "validation-error"

/-- Constant `let requiredClassName = 'req'` (line 400). -/
def requiredClassName : String := "req"

/-- The selectors that `forms.js` passes to the helper library. -/
inductive Selector where
  /-- Type selector such as `form` or `input`. -/
  | tag (t : String)
  /-- Class selector such as `.field`. -/
  | cls (c : String)
  /-- Selector such as `input[type="text"]`. -/
  | tagAttr (t a v : String)
  /-- Selector list `a, b`. -/
  | or (a b : Selector)
deriving DecidableEq, Repr

/-- Attribute read: `getAttribute`, `none` when the attribute is absent. -/
def Element.attr (e : Element) (a : String) : Option String :=
  (e.attrs.find? (fun kv => kv.1 == a)).map (fun kv => kv.2)

/-- Class test on one element. -/
def Element.hasClass (e : Element) (c : String) : Bool :=
  e.classes.contains c

/-- Models `Element.matches(selector)`. -/
def Selector.matchesEl : Selector → Element → Bool
  | .tag t, e => e.tag == t
  | .cls c, e => e.hasClass c
  | .tagAttr t a v, e => e.tag == t && e.attr a == some v
  | .or a b, e => a.matchesEl e || b.matchesEl e

/-- The selector `input, select, textarea` (lines 411 and 522). -/
def fieldSelector : Selector :=
  .or (.tag "input") (.or (.tag "select") (.tag "textarea"))

/-- The selector `.submission-error` (lines 408 and 500). -/
def submissionErrorSelector : Selector := .cls "submission-error"

/-! ## Tree navigation -/

/-- Models `el.matches(selector)` for the element at position `i`; `false` off the document. -/
def elMatches (d : Dom) (sel : Selector) (i : Nat) : Bool :=
  match d[i]? with
  | some e => sel.matchesEl e
  | none => false

/-- Class test for the element at position `i`. -/
def hasClass (d : Dom) (i : Nat) (c : String) : Bool :=
  match d[i]? with
  | some e => e.hasClass c
  | none => false

/-- Parent of the element at position `i`. -/
def parentOf (d : Dom) (i : Nat) : Option Nat :=
  match d[i]? with
  | some e =>
    match e.parent with
    | some p => if p < i then some p else none
    | none => none
  | none => none

/-- Walk from `i` towards the root, returning the first element matching `sel`.
Each step moves to a smaller position, so `fuel = i + 1` always reaches the root. -/
def closestAux (d : Dom) (sel : Selector) : Nat → Nat → Option Nat
  | 0, _ => none
  | fuel + 1, i =>
    if elMatches d sel i then some i
    else
      match parentOf d i with
      | some p => closestAux d sel fuel p
      | none => none

/-- Models `__(el).closest(selector)`: the element itself or its nearest matching ancestor. -/
def closest (d : Dom) (sel : Selector) (i : Nat) : Option Nat :=
  closestAux d sel (i + 1) i

/-- Whether `a` is reached from `i` by following parents at least `0` times. -/
def reachesAux (d : Dom) (a : Nat) : Nat → Nat → Bool
  | 0, _ => false
  | fuel + 1, i =>
    if i = a then true
    else
      match parentOf d i with
      | some p => reachesAux d a fuel p
      | none => false

/-- Whether `i` is a proper descendant of `a`. -/
def isDescendant (d : Dom) (a i : Nat) : Bool :=
  match parentOf d i with
  | some p => reachesAux d a (p + 1) p
  | none => false

/-- Models `__(el).find(selector)`: the descendants of `root` matching `sel`, in document order. -/
def find (d : Dom) (root : Nat) (sel : Selector) : List Nat :=
  (List.range d.length).filter (fun j => isDescendant d root j && elMatches d sel j)

/-- Models `__(set).find(selector)` for a set of several elements. -/
def findAll (d : Dom) (sel : Selector) : List Nat → List Nat
  | [] => []
  | el :: rest => find d el sel ++ findAll d sel rest

/-! ## Mutation -/

/-- Replace the element at position `i` by `f` of it; other positions are untouched. -/
def modifyAt (f : Element → Element) : Dom → Nat → Dom
  | [], _ => []
  | e :: es, 0 => f e :: es
  | e :: es, i + 1 => e :: modifyAt f es i

/-- Models `classList.add(c)` on one element. -/
def Element.addClass (c : String) (e : Element) : Element :=
  if e.classes.contains c then e else { e with classes := e.classes ++ [c] }

/-- Models `classList.remove(c)` on one element. -/
def Element.removeClass (c : String) (e : Element) : Element :=
  { e with classes := e.classes.filter (fun x => x != c) }

/-- Models `addEventListener('blur', h)`: a listener already registered is not added again. -/
def Element.addBlur (h : Nat) (e : Element) : Element :=
  if e.blur.contains h then e else { e with blur := e.blur ++ [h] }

/-- Models `removeEventListener('blur', h)`. -/
def Element.removeBlur (h : Nat) (e : Element) : Element :=
  { e with blur := e.blur.filter (fun x => x != h) }

/-- Models `remove()` on one element: it leaves its parent and keeps its subtree. -/
def Element.detach (e : Element) : Element :=
  { e with parent := none }

/-- Models `__(set).addClass(c)` for the at most one element returned by `closest`. -/
def addClassOpt (d : Dom) (w : Option Nat) (c : String) : Dom :=
  match w with
  | some i => modifyAt (Element.addClass c) d i
  | none => d

/-- Models `__(set).hasClass(c)` for the at most one element returned by `closest`. -/
def hasClassOpt (d : Dom) (w : Option Nat) (c : String) : Bool :=
  match w with
  | some i => hasClass d i c
  | none => false

/-- Models `__(set).removeClass(c)`. -/
def removeClassAll (d : Dom) (c : String) : List Nat → Dom
  | [] => d
  | i :: rest => removeClassAll (modifyAt (Element.removeClass c) d i) c rest

/-- Models `__(set).remove()`. -/
def removeAll (d : Dom) : List Nat → Dom
  | [] => d
  | i :: rest => removeAll (modifyAt Element.detach d i) rest

/-! ## JavaScript values used by the code -/

/-- The code points `String.prototype.trim` strips: WhiteSpace and LineTerminator. -/
def isJsSpace (c : Char) : Bool :=
  let n := c.toNat
  n == 0x09 || n == 0x0A || n == 0x0B || n == 0x0C || n == 0x0D || n == 0x20 ||
  n == 0xA0 || n == 0x1680 || (0x2000 ≤ n && n ≤ 0x200A) || n == 0x2028 ||
  n == 0x2029 || n == 0x202F || n == 0x205F || n == 0x3000 || n == 0xFEFF

/-- Models `String.prototype.trim`. -/
def jsTrim (s : String) : String :=
  String.mk ((s.data.dropWhile isJsSpace).reverse.dropWhile isJsSpace).reverse

/-- A JavaScript number whose value is an integer, `none` being `NaN`.  A JavaScript
number is an IEEE double: the integers it can hold are those `roundToDouble` returns, and
the two integers `2^1024` and `-2^1024`, which lie beyond every finite double, stand for
`Infinity` and `-Infinity`. -/
abbrev JsNum := Option Int

/-- The integer that stands for `Infinity`: `2^1024`. -/
def infinityCode : Nat := 2 ^ 1024

/-- The double nearest to the natural number `n` (ties go to the even significand), as an
integer: below `2^53` every integer is a double; from there on the 53 leading bits are
kept and the rest is rounded; what rounds to `2^1024` or more is `Infinity`. -/
def roundToDouble (n : Nat) : Nat :=
  if n < 9007199254740992 then n
  else
    let e := (Nat.toDigits 2 n).length - 53
    let q := n / 2 ^ e
    let r := n % 2 ^ e
    let half := 2 ^ (e - 1)
    let q := if r > half || (r == half && q % 2 == 1) then q + 1 else q
    let m := q * 2 ^ e
    if m < infinityCode then m else infinityCode

/-- The values a form field or a `getValues` entry can hold. -/
inductive JsValue where
  /-- A string. -/
  | str (s : String)
  /-- A `FileList`. -/
  | files (fs : List File)
  /-- A number. -/
  | num (n : JsNum)
deriving DecidableEq, Repr

/-- Models `__(el).value()` on one element.  A file input with a selection yields its
`FileList` (lines 197-208 and 540 rely on it); every other control yields the string in
its `value` property. -/
def Element.fieldValue (e : Element) : JsValue :=
  if e.tag == "input" && e.attr "type" == some "file" then
    match e.files with
    | some (f :: fs) => .files (f :: fs)
    | _ => .str e.value
  else .str e.value

/-- Truthiness of a value: the empty string, `0` and `NaN` are falsy. -/
def JsValue.truthy : JsValue → Bool
  | .str s => s != ""
  | .files _ => true
  | .num (some n) => n != 0
  | .num none => false

/-! ## `validate` (lines 397-488) -/

/-- The emptiness checks of lines 439-457 on one required field: the value of
`fieldIsValid` when line 462 is reached. -/
def fieldIsValid (e : Element) : Bool :=
  let ok := true
  -- validate <textarea>
  let ok := if e.tag == "textarea" then (if jsTrim e.value == "" then false else ok) else ok
  -- validate <select>
  let ok := if e.tag == "select" then (if jsTrim e.value == "" then false else ok) else ok
  -- validate <input type="text">
  let ok := if e.tag == "input" && e.attr "type" == some "text"
    then (if jsTrim e.value == "" then false else ok) else ok
  -- validate <input type="file">
  let ok := if e.tag == "input" && e.attr "type" == some "file" then
      (match e.files with
       | none => false
       | some [] => false
       | some (_ :: _) => ok)
    else ok
  ok

/-- The fields that get a blur handler (line 466): `textarea` and `input[type="text"]`. -/
def getsBlurHandler (e : Element) : Bool :=
  e.tag == "textarea" || (e.tag == "input" && e.attr "type" == some "text")

/-- The gathering loop of lines 404-417.  A matched `form` first loses its
`.submission-error` descendants and then contributes its `input, select, textarea`
descendants; any other matched element is itself a field. -/
def gatherFields (d : Dom) (fieldsToValidate : List Nat) : List Nat → Dom × List Nat
  | [] => (d, fieldsToValidate)
  | el :: rest =>
    if elMatches d (.tag "form") el then
      let d1 := removeAll d (find d el submissionErrorSelector)
      gatherFields d1 (fieldsToValidate ++ find d1 el fieldSelector) rest
    else
      gatherFields d (fieldsToValidate ++ [el]) rest

/-- One iteration of the loop of lines 423-472 for the field `fieldEl`.  `handler` is the
identity of this call's `validationErrorOnBlurHandler` function object.  The result is the
document afterwards and `true` when the iteration executed `result = false`. -/
def validateField (d : Dom) (handler : Nat) (fieldEl : Nat) : Dom × Bool :=
  let fieldParent := closest d (.cls "field") fieldEl
  -- the field may already be invalid from a previous validation
  if hasClassOpt d fieldParent validationErrorClassName then (d, true)
  -- only check required fields
  else if !hasClass d fieldEl requiredClassName then (d, false)
  else
    match d[fieldEl]? with
    | none => (d, false)
    | some e =>
      if !fieldIsValid e then
        let d1 := addClassOpt d fieldParent validationErrorClassName
        let d2 := if getsBlurHandler e then modifyAt (Element.addBlur handler) d1 fieldEl else d1
        (d2, true)
      else (d, false)

/-- The loop of lines 423-472 over `fieldsToValidate`, threading `result`. -/
def validateFields (handler : Nat) : Dom → Bool → List Nat → Dom × Bool
  | d, result, [] => (d, result)
  | d, result, fieldEl :: rest =>
    let step := validateField d handler fieldEl
    validateFields handler step.1 (if step.2 then false else result) rest

/-- Models `validate(selector)`.  `scope` is the list of elements `__(selector)` matches and
`handler` the identity of the `validationErrorOnBlurHandler` function object this call
creates (a function declaration inside `validate` yields a new object on every call).
The result is the document afterwards and the return value, `none` being `null`. -/
def validate (d : Dom) (handler : Nat) (scope : List Nat) : Dom × Option Bool :=
  let gathered := gatherFields d [] scope
  -- if there are no fields to validate, validation cannot occur, so return null
  if gathered.2.isEmpty then (gathered.1, none)
  else
    let out := validateFields handler gathered.1 true gathered.2
    (out.1, some out.2)

/-- Models `validationErrorOnBlurHandler` (lines 479-485) fired on `target`: when the value is
truthy, the nearest element carrying the error class loses it and the handler is removed. -/
def validationErrorOnBlurHandler (d : Dom) (handler : Nat) (target : Nat) : Dom :=
  match d[target]? with
  | none => d
  | some e =>
    if e.fieldValue.truthy then
      let d1 :=
        match closest d (.cls validationErrorClassName) target with
        | some w => modifyAt (Element.removeClass validationErrorClassName) d w
        | none => d
      modifyAt (Element.removeBlur handler) d1 target
    else d

/-! ## `clearValidation` (lines 497-502) -/

/-- Models `clearValidation(selector)`.  Line 499 passes `validationErrorClassName` itself to
`find`, that is the selector `validation-error` without a leading dot: a type selector. -/
def clearValidation (d : Dom) : List Nat → Dom
  | [] => d
  | el :: rest =>
    let d1 := removeClassAll d validationErrorClassName (find d el (.tag validationErrorClassName))
    let d2 := removeAll d1 (find d1 el submissionErrorSelector)
    clearValidation d2 rest


/-! ## `prepareNumberInputs` (lines 245-285): the two `change` listeners -/

/-- Constant `Number.MAX_SAFE_INTEGER`. -/
def maxSafeInteger : Int := 9007199254740991

/-- Value of a digit in the given radix, `none` for any other character. -/
def digitValue (radix : Nat) (c : Char) : Option Nat :=
  let n := c.toNat
  let v :=
    if 48 ≤ n && n ≤ 57 then some (n - 48)
    else if 97 ≤ n && n ≤ 102 then some (n - 87)
    else if 65 ≤ n && n ≤ 70 then some (n - 55)
    else none
  match v with
  | some k => if k < radix then some k else none
  | none => none

/-- Read the longest run of digits at the head of `cs`: the number read so far and
whether any digit was seen. -/
def readDigits (radix : Nat) : List Char → Nat → Bool → Nat × Bool
  | [], acc, seen => (acc, seen)
  | c :: cs, acc, seen =>
    match digitValue radix c with
    | some k => readDigits radix cs (acc * radix + k) true
    | none => (acc, seen)

/-- Models `parseInt(string)` without a radix argument: leading white space, an optional sign,
an optional `0x`, then the longest run of digits; `NaN` when there is no digit.  The
result is a double: the integer the digits spell, rounded by `roundToDouble` (the digits
are taken in full; an engine may drop those after the twentieth). -/
def parseInt (s : String) : JsNum :=
  let cs := s.data.dropWhile isJsSpace
  let signed : Bool × List Char :=
    match cs with
    | '-' :: r => (true, r)
    | '+' :: r => (false, r)
    | _ => (false, cs)
  let based : Nat × List Char :=
    match signed.2 with
    | '0' :: 'x' :: r => (16, r)
    | '0' :: 'X' :: r => (16, r)
    | _ => (10, signed.2)
  let read := readDigits based.1 based.2 0 false
  if read.2 then
    some (if signed.1 then - (roundToDouble read.1 : Int) else (roundToDouble read.1 : Int))
  else none

/-- Models `parseInt(__(el).attr(a))`: an absent attribute is `null`, which parses to `NaN`. -/
def parseIntAttr : Option String → JsNum
  | some s => parseInt s
  | none => none

/-- Truthiness of `__(el).attr(a)`: `null` and the empty string are falsy. -/
def attrTruthy : Option String → Bool
  | some s => s != ""
  | none => false

/-- Truthiness of a number: `0` and `NaN` are falsy. -/
def numTruthy : JsNum → Bool
  | some n => n != 0
  | none => false

/-- Comparison `a < b` on numbers; any comparison with `NaN` is `false`. -/
def jsLt : JsNum → JsNum → Bool
  | some x, some y => decide (x < y)
  | _, _ => false

/-- Comparison `a > b` on numbers; any comparison with `NaN` is `false`. -/
def jsGt : JsNum → JsNum → Bool
  | some x, some y => decide (x > y)
  | _, _ => false

/-- The property read `n.length` on a primitive number.  Numbers have no `length`, so the
read yields `undefined`, which a relational comparison converts to `NaN` (`none`). -/
def numberLength (_n : JsNum) : JsNum := none

/-- The `change` listener of lines 250-260 on the element `e`: the number assigned to
`el.value`, or the exception the truncation branch would raise (`substring` is not a
method of a number). -/
def maxlengthChangeListener (e : Element) : Except String JsNum :=
  let userSetValue := parseInt e.value
  let maxLength := parseIntAttr (e.attr "maxlength")
  -- if longer than the maxlength, truncate to that length
  if jsGt (numberLength userSetValue) maxLength then
    .error "TypeError: userSetValue.substring is not a function"
  else
    .ok userSetValue

/-- The `change` listener of lines 267-283 on the element `e`: the number assigned to
`el.value`. -/
def minMaxChangeListener (e : Element) : JsNum :=
  let userSetValue := parseInt e.value
  let min := if attrTruthy (e.attr "min") then parseIntAttr (e.attr "min") else some 0
  let max :=
    if attrTruthy (e.attr "max") then parseIntAttr (e.attr "max") else some maxSafeInteger
  -- if there is a set minimum and this is below it, become the min
  let userSetValue := if numTruthy min && jsLt userSetValue min then min else userSetValue
  -- if there is a set maximum and this is above it, become the max
  let userSetValue := if numTruthy max && jsGt userSetValue max then max else userSetValue
  userSetValue

/-- The clamp as the specification words it: `lo` is the declared minimum or `0`, `hi`
the declared maximum or `Number.MAX_SAFE_INTEGER`; below `lo` gives `lo`, above `hi`
gives `hi`, anything else is unchanged. -/
def specClamp (declaredMin declaredMax : Option Int) (v : Int) : Int :=
  let lo := declaredMin.getD 0
  let hi := declaredMax.getD maxSafeInteger
  if v < lo then lo else if v > hi then hi else v

/-- Models `Number.isSafeInteger`: the integers between `-(2^53 - 1)` and `2^53 - 1`, on which
JavaScript numbers are exact. -/
def isSafeInteger (n : Int) : Prop :=
  -maxSafeInteger ≤ n ∧ n ≤ maxSafeInteger

/-- The truncation as the specification words it: the integer formed by the first `n`
decimal digits of `v` when `v` has more than `n` digits, `v` itself otherwise. -/
def specTruncate (n v : Nat) : Nat :=
  let digits := Nat.toDigits 10 v
  if digits.length > n then (digits.take n).foldl (fun acc c => acc * 10 + (c.toNat - 48)) 0
  else v

/-- An `input type="number"` with the given further attributes and entered value. -/
def numberInput (attrs : List (String × String)) (value : String) : Element :=
  mkEl "input" [] (("type", "number") :: attrs) value none

/-! ## `getValues` (lines 518-552) -/

/-- A plain object: its own enumerable properties, in insertion order (the place
JavaScript gives integer-like keys is not modelled; the properties below read an object
key by key).  The prototype is not part of the model. -/
abbrev JsObject := List (String × JsValue)

/-- Own-property read `values[k]`, `none` when the object has no such own key. -/
def JsObject.get (o : JsObject) (k : String) : Option JsValue :=
  (o.find? (fun kv => kv.1 == k)).map (fun kv => kv.2)

/-- Write of an own property: an existing key keeps its place, a new key goes last. -/
def JsObject.setOwn (o : JsObject) (k : String) (v : JsValue) : JsObject :=
  if o.any (fun kv => kv.1 == k) then o.map (fun kv => if kv.1 == k then (kv.1, v) else kv)
  else o ++ [(k, v)]

/-- Property write `values[k] = v` on an object literal.  The key `__proto__` is the
accessor inherited from `Object.prototype`: the assignment goes to the prototype setter
and creates no own property.  Every other key is written as an own property. -/
def JsObject.set (o : JsObject) (k : String) (v : JsValue) : JsObject :=
  if k == "__proto__" then o else o.setOwn k v

/-- The property key made from `__(el).attr('name')`: an absent attribute is `null`, whose
key is the string `null`. -/
def propertyKey : Option String → String
  | some s => s
  | none => "null"

/-- String conversion of a value inside a template literal. -/
def JsValue.toStr : JsValue → String
  | .str s => s
  | .files _ => "[object FileList]"
  | .num (some n) =>
    if n ≥ (infinityCode : Int) then "Infinity"
    else if n ≤ - (infinityCode : Int) then "-Infinity"
    else toString n
  | .num none => "NaN"

/-- Models `__(el).value()` for the element at position `i`. -/
def elValue (d : Dom) (i : Nat) : JsValue :=
  match d[i]? with
  | some e => e.fieldValue
  | none => .str ""

/-- Models `__(el).attr('name')` for the element at position `i`. -/
def elName (d : Dom) (i : Nat) : Option String :=
  match d[i]? with
  | some e => e.attr "name"
  | none => none

/-- The loop of lines 522-524 over the fields found. -/
def collectValues (d : Dom) : JsObject → List Nat → JsObject
  | values, [] => values
  | values, el :: rest =>
    collectValues d (values.set (propertyKey (elName d el)) (elValue d el)) rest

/-- The inner loop of lines 541-547 for one `FileList`: every file in turn overwrites
`values[name]` with its path. -/
def collapseFileList (values : JsObject) (name : String) : List File → JsObject
  | [] => values
  | file :: rest => collapseFileList (values.set name (.str file.path)) name rest

/-- The loop of lines 539-549 over the entries `Object.entries(values)` returned. -/
def collapseFiles : JsObject → List (String × JsValue) → JsObject
  | values, [] => values
  | values, (name, .files fs) :: rest => collapseFiles (collapseFileList values name fs) rest
  | values, (_, .str _) :: rest => collapseFiles values rest
  | values, (_, .num _) :: rest => collapseFiles values rest

/-- The date rule of lines 527-536.  `dateParse` is the host's `Date.parse`. -/
def composeDate (dateParse : String → JsNum) (d : Dom) (formEl : List Nat)
    (values : JsObject) : JsObject :=
  match findAll d (.tagAttr "input" "name" "date-dd") formEl,
        findAll d (.tagAttr "input" "name" "date-mm") formEl,
        findAll d (.tagAttr "input" "name" "date-yyyy") formEl with
  | dd :: _, mm :: _, yyyy :: _ =>
    let day := elValue d dd
    let month := elValue d mm
    let year := elValue d yyyy
    if day.truthy && month.truthy && year.truthy then
      let values := values.set "date-ms"
        (.num (dateParse (year.toStr ++ "-" ++ month.toStr ++ "-" ++ day.toStr)))
      values.set "date-dd-mm-yyyy" (.str (day.toStr ++ "-" ++ month.toStr ++ "-" ++ year.toStr))
    else values
  | _, _, _ => values

/-- Models `getValues(formEl)`.  `formEl` is the list of elements `__(formEl)` matches.  The
function ends in `return values` for every input; the result is wrapped in `some` so
that `null` (`none`) can be told apart from the object returned. -/
def getValues (dateParse : String → JsNum) (d : Dom) (formEl : List Nat) : Option JsObject :=
  -- pull each field value out
  let values := collectValues d [] (findAll d fieldSelector formEl)
  -- if the date dd-mm-yyyy fields exist
  let values := composeDate dateParse d formEl values
  -- convert File objects to simpler objects
  some (collapseFiles values values)

/-- The value `__(formEl).find('input[name="..."]').value()` reads: that of the first
input of that name, `none` when the form has no such input. -/
def namedInputValue (d : Dom) (formEl : List Nat) (name : String) : Option JsValue :=
  (findAll d (.tagAttr "input" "name" name) formEl).head?.map (elValue d)

/-- The name-to-value mapping of a list of fields at the key `k`, the last field of a
name winning: the value of the last field whose name makes the key `k`, `none` when no
field does. -/
def lastNamedValue (d : Dom) (k : String) : List Nat → Option JsValue
  | [] => none
  | f :: rest =>
    match lastNamedValue d k rest with
    | some v => some v
    | none => if propertyKey (elName d f) == k then some (elValue d f) else none

/-- What the loop of lines 539-549 leaves in place of a value: a file list with files
gives way to the path of its last file, any other value stays. -/
def collapsedValue : JsValue → JsValue
  | .files fs =>
    match fs.getLast? with
    | some last => .str last.path
    | none => .files fs
  | .str s => .str s
  | .num n => .num n

/-- All entries of the object under one key hold the same value. -/
def JsObject.functional (o : JsObject) : Prop :=
  ∀ kv1 ∈ o, ∀ kv2 ∈ o, kv1.1 = kv2.1 → kv1.2 = kv2.2

/-- The object has an entry under the key `k`. -/
def JsObject.hasKey (o : JsObject) (k : String) : Prop :=
  ∃ v, (k, v) ∈ o

/-- Every entry of the object under the key `k` holds the value `v`. -/
def JsObject.allAt (o : JsObject) (k : String) (v : JsValue) : Prop :=
  ∀ kv ∈ o, kv.1 = k → kv.2 = v

/-! ## `prepare` (lines 30-46) and the field preparators (lines 53-311)

`prepare` inserts wrapper elements, so it is embedded over a tree of nodes.  Every
preparator has the shape

    __(formEl).find(selector).each((el) => { if (__(el).closest(guard).els.length) return; wrap el })

`find` lists the descendants of the form in document order, and wrapping an element
puts new ancestors only above that element, so the loop is a top-down walk that carries
the classes of the ancestors built so far: `closest(guard)` is non-empty exactly when
the element or one of these ancestors has the guard class.  Listeners and observers are
not part of the tree.  Label texts are taken as plain text.
-/

/-- A node of the document tree: an element with its children, or a text node. -/
inductive DomNode where
  | el (tag : String) (classes : List String) (attrs : List (String × String))
      (children : List DomNode)
  | text (s : String)
deriving Repr

/-- Attribute read on an attribute list, `none` when the attribute is absent. -/
def attrOf (attrs : List (String × String)) (a : String) : Option String :=
  (attrs.find? (fun kv => kv.1 == a)).map (fun kv => kv.2)

/-- Attribute write `attr(a, v)`: an existing attribute is replaced, a new one added. -/
def setAttrOf (attrs : List (String × String)) (a v : String) : List (String × String) :=
  if attrs.any (fun kv => kv.1 == a) then attrs.map (fun kv => if kv.1 == a then (a, v) else kv)
  else attrs ++ [(a, v)]

/-- String conversion of an attribute value inside a template literal; `null` prints as
`null`. -/
def templateStr : Option String → String
  | some s => s
  | none => "null"

/-- The text child that the markup `<span>s</span>` gives its element: none for the
empty string. -/
def textNodes (s : String) : List DomNode :=
  if s == "" then [] else [.text s]

/-- What a preparator does to one element it wraps: the element as it is left (without
its children), the classes of the new ancestors put above it, and the wrapper built
around the finished element. -/
structure Wrapping where
  tag : String
  classes : List String
  attrs : List (String × String)
  ancestorClasses : List String
  build : DomNode → DomNode

/-- One preparator: the elements its selector matches, the class its `closest` guard
looks for, and the wrapping it performs. -/
structure Preparator where
  target : String → List (String × String) → Bool
  guard : String
  wrap : String → List String → List (String × String) → Wrapping

mutual
/-- The `each` loop of a preparator below a node whose ancestors-or-self carry the
classes `anc`. -/
def Preparator.run (p : Preparator) (anc : List String) : DomNode → DomNode
  | .text s => .text s
  | .el tag classes attrs children =>
    -- wrapping might have been done on a previous pass
    if p.target tag attrs && !(classes ++ anc).contains p.guard then
      let w := p.wrap tag classes attrs
      w.build (.el w.tag w.classes w.attrs
        (Preparator.runList p (w.classes ++ w.ancestorClasses ++ anc) children))
    else
      .el tag classes attrs (Preparator.runList p (classes ++ anc) children)
/-- The loop of `Preparator.run` over a list of siblings. -/
def Preparator.runList (p : Preparator) (anc : List String) : List DomNode → List DomNode
  | [] => []
  | n :: ns => Preparator.run p anc n :: Preparator.runList p anc ns
end

/-- A preparator applied to the form: `find` looks at the descendants of `formEl`, not at
`formEl` itself; `outer` holds the classes of the ancestors of the form. -/
def Preparator.onForm (p : Preparator) (outer : List String) : DomNode → DomNode
  | .text s => .text s
  | .el tag classes attrs children =>
    .el tag classes attrs (Preparator.runList p (classes ++ outer) children)

/-- Models `prepareSelects` (lines 53-70): the guard is `.form-select`, the wrapper class is
`form-multi-select` for a select with the attribute `multiple`. -/
def prepareSelects : Preparator :=
  { target := fun tag _ => tag == "select",
    guard := "form-select",
    wrap := fun tag classes attrs =>
      let selectClass :=
        if (attrOf attrs "multiple").isSome then "form-multi-select" else "form-select"
      let labelHtml :=
        if attrTruthy (attrOf attrs "data-label") then
          [DomNode.el "span" ["label-text"] [] (textNodes (templateStr (attrOf attrs "data-label")))]
        else []
      { tag := tag, classes := classes, attrs := attrs,
        ancestorClasses := ["select-outer", "field", selectClass],
        build := fun select =>
          .el "div" ["field", selectClass] []
            (labelHtml ++ [.el "div" ["select-outer"] [] [select]]) } }

/-- Models `prepareCheckboxes` (lines 77-108); the value of `data-align` is taken to be one
class token. -/
def prepareCheckboxes : Preparator :=
  { target := fun tag attrs => tag == "input" && attrOf attrs "type" == some "checkbox",
    guard := "toggle-switch",
    wrap := fun tag classes attrs =>
      let label := templateStr (attrOf attrs "data-label")
      let align :=
        if attrTruthy (attrOf attrs "data-align") then templateStr (attrOf attrs "data-align")
        else "left"
      let tooltipHtml :=
        if attrTruthy (attrOf attrs "data-explanation") then
          [DomNode.el "i" ["explanation", "tooltip", "far", "fa-question-circle"]
            [("data-tooltip", templateStr (attrOf attrs "data-explanation"))] []]
        else []
      { tag := tag, classes := classes, attrs := attrs,
        ancestorClasses := ["toggle-switch", "field", "toggle-switch-field", "align-" ++ align],
        build := fun checkbox =>
          .el "div" ["field", "toggle-switch-field", "align-" ++ align] []
            [.el "label" [] []
               [.el "div" ["toggle-switch"] []
                  [checkbox, .el "div" ["switch"] [] [], .el "div" ["focus"] [] []]],
             .el "span" ["label-text"] [] (tooltipHtml ++ textNodes label)] } }

/-- Models `prepareRadios` (lines 115-137). -/
def prepareRadios : Preparator :=
  { target := fun tag attrs => tag == "input" && attrOf attrs "type" == some "radio",
    guard := "radio-field",
    wrap := fun tag classes attrs =>
      let label :=
        if attrTruthy (attrOf attrs "data-label") then templateStr (attrOf attrs "data-label")
        else ""
      let color :=
        if classes.contains "color-swatch" then
          [("style", "background-color:" ++ templateStr (attrOf attrs "value") ++ ";")]
        else []
      { tag := tag, classes := classes, attrs := attrs,
        ancestorClasses := ["clicks", "field", "radio-field"],
        build := fun radioInput =>
          .el "div" ["field", "radio-field"] []
            [.el "label" ["clicks"] color [radioInput],
             .el "span" ["label-text"] [] (textNodes label)] } }

/-- Models `prepareFilePickers` (lines 144-219) for the tree: only a file input with
`accept="image/*"` is wrapped.  `chooseFile` is `i18n('choose-file')` and `normPath` the
helper `__doubleSlashesOnWindowsOnly`. -/
def prepareFilePickers (chooseFile : String) (normPath : String → String) : Preparator :=
  { target := fun tag attrs =>
      tag == "input" && attrOf attrs "type" == some "file" &&
        attrOf attrs "accept" == some "image/*",
    guard := "photo-input",
    wrap := fun tag classes attrs =>
      let labelText := templateStr (attrOf attrs "data-label")
      let hasValue := attrTruthy (attrOf attrs "data-value")
      let path := templateStr (attrOf attrs "data-value")
      let thumbAttrs :=
        if hasValue then [("style", "background-image: url('" ++ normPath path ++ "')")] else []
      { tag := tag, classes := classes,
        attrs := if hasValue then setAttrOf attrs "data-original-value" path else attrs,
        ancestorClasses := ["photo-input", "field"],
        build := fun fileEl =>
          .el "div" ["photo-input", "field"] []
            [.el "span" ["label-text"] [] (textNodes labelText),
             .el "label" [] []
               [fileEl,
                .el "div" ["thumb"] thumbAttrs
                  [.el "span" ["btn"] [] (textNodes chooseFile),
                   .el "button" ["remove-photo", "icon-button"] [("type", "button")]
                     [.el "span" [] [("tabindex", "-1")]
                        [.el "i" ["fas", "fa-times-circle"] [] []]]]]] } }

/-- Models `prepareTextualInputs` (lines 226-240).  `wrapInto(...).el()` is read as the
wrapped input itself, so the label text comes from the input and `no-label` goes on the
input. -/
def prepareTextualInputs : Preparator :=
  { target := fun tag attrs =>
      (tag == "input" && attrOf attrs "type" == some "text") ||
      (tag == "input" && attrOf attrs "type" == some "number") || tag == "textarea",
    guard := "text-input",
    wrap := fun tag classes attrs =>
      let hasLabel := attrTruthy (attrOf attrs "data-label")
      let labelHtml :=
        if hasLabel then
          [DomNode.el "span" ["label-text"] [] (textNodes (templateStr (attrOf attrs "data-label")))]
        else []
      { tag := tag,
        classes :=
          if hasLabel then classes
          else if classes.contains "no-label" then classes else classes ++ ["no-label"],
        attrs := attrs,
        ancestorClasses := ["text-input"],
        build := fun input => .el "label" ["text-input"] [] (labelHtml ++ [input]) } }

mutual
/-- Models `prepareHiddenFields` (lines 290-311) on the tree: below a `.hidden-fields` element,
every `input, select, textarea, button, a` gets `tabindex="-1"`. -/
def prepareHiddenFields (inside : Bool) : DomNode → DomNode
  | .text s => .text s
  | .el tag classes attrs children =>
    let isChild := ["input", "select", "textarea", "button", "a"].contains tag
    .el tag classes (if inside && isChild then setAttrOf attrs "tabindex" "-1" else attrs)
      (prepareHiddenFieldsList (inside || classes.contains "hidden-fields") children)
/-- The walk of `prepareHiddenFields` over a list of siblings. -/
def prepareHiddenFieldsList (inside : Bool) : List DomNode → List DomNode
  | [] => []
  | n :: ns => prepareHiddenFields inside n :: prepareHiddenFieldsList inside ns
end

/-- Models `prepareHiddenFields` applied to the form: only descendants of the form are looked at. -/
def prepareHiddenFieldsOnForm : DomNode → DomNode
  | .text s => .text s
  | .el tag classes attrs children =>
    .el tag classes attrs (prepareHiddenFieldsList false children)

/-- Models `prepare(formEl)` on the tree.  `prepareNumberInputs`, `formListenForReset` and
`formListenForSuccess` only attach listeners and leave the tree as it is. -/
def prepare (chooseFile : String) (normPath : String → String) (outer : List String)
    (formEl : DomNode) : DomNode :=
  -- child fields
  let t := prepareSelects.onForm outer formEl
  let t := prepareCheckboxes.onForm outer t
  let t := prepareRadios.onForm outer t
  let t := (prepareFilePickers chooseFile normPath).onForm outer t
  let t := prepareTextualInputs.onForm outer t
  -- functionality
  prepareHiddenFieldsOnForm t

mutual
/-- Number of elements of the tree that carry the class `c`. -/
def countClass (c : String) : DomNode → Nat
  | .text _ => 0
  | .el _ classes _ children =>
    (if classes.contains c then 1 else 0) + countClassList c children
/-- Number of elements carrying the class `c` in a list of siblings. -/
def countClassList (c : String) : List DomNode → Nat
  | [] => 0
  | n :: ns => countClass c n + countClassList c ns
end

/-- A form that holds one `<select multiple>`. -/
def multiSelectForm : DomNode :=
  .el "form" [] [] [.el "select" [] [("multiple", ""), ("name", "genres")] []]

/-- A form with one field of every other kind `prepare` wraps. -/
def plainFieldsForm : DomNode :=
  .el "form" [] []
    [.el "select" [] [("name", "size"), ("data-label", "Size")] [],
     .el "input" [] [("type", "checkbox"), ("data-label", "Agree")] [],
     .el "input" ["color-swatch"] [("type", "radio"), ("value", "red")] [],
     .el "input" [] [("type", "file"), ("accept", "image/*"), ("data-value", "/p.png")] [],
     .el "input" [] [("type", "number"), ("maxlength", "3")] [],
     .el "div" ["hidden-fields"] [] [.el "textarea" [] [("data-label", "Notes")] []]]

/-! ## Vocabulary of the validation properties -/

/-- The wrapper of `f` (its closest `.field`) carries the error class in `d`. -/
def wrapperHasError (d : Dom) (f : Nat) : Bool :=
  hasClassOpt d (closest d (.cls "field") f) validationErrorClassName

/-- The field `f` is flagged as required and breaks the emptiness rule of its kind. -/
def detectedInvalid (d : Dom) (f : Nat) : Bool :=
  hasClass d f requiredClassName &&
    (match d[f]? with
     | some e => !fieldIsValid e
     | none => false)

/-- A field fails when its wrapper already carries the error class or it is detected as
invalid; it passes otherwise. -/
def fieldFails (d : Dom) (f : Nat) : Bool :=
  wrapperHasError d f || detectedInvalid d f

/-- A required, whitespace-only textarea inside a clean `.field` wrapper. -/
def requiredTextareaDoc : Dom :=
  [mkEl "div" ["field"] [] "" none,
   mkEl "textarea" ["req"] [] "  " (some 0)]

/-- A form whose only field sits in a wrapper that already carries the error class. -/
def erredFieldDoc : Dom :=
  [mkEl "form" [] [] "" none,
   mkEl "div" ["field", "validation-error"] [] "" (some 0),
   mkEl "input" [] [("type", "text")] "filled" (some 1)]

/-- A form with an erred `.field` wrapper that holds `.submission-error` markup, and an
optional text input inside that markup. -/
def fieldInsideSubmissionErrorDoc : Dom :=
  [mkEl "form" [] [] "" none,
   mkEl "div" ["field", "validation-error"] [] "" (some 0),
   mkEl "div" ["submission-error"] [] "" (some 1),
   mkEl "input" [] [("type", "text")] "filled" (some 2)]

/-- A form whose required, empty text input sits in the `label.text-input` wrapper that
`prepareTextualInputs` builds (line 231), which has no `.field` class. -/
def unwrappedTextInputDoc : Dom :=
  [mkEl "form" [] [] "" none,
   mkEl "label" ["text-input"] [] "" (some 0),
   mkEl "input" ["req"] [("type", "text")] "" (some 1)]

/-- The `blur` listeners registered on the element at position `i`. -/
def blurListeners (d : Dom) (i : Nat) : List Nat :=
  match d[i]? with
  | some e => e.blur
  | none => []

/-- A form with the three date inputs filled with `09`, `04` and `2024`. -/
def dateFormDoc : Dom :=
  [mkEl "form" [] [] "" none,
   mkEl "input" [] [("type", "text"), ("name", "date-dd")] "09" (some 0),
   mkEl "input" [] [("type", "text"), ("name", "date-mm")] "04" (some 0),
   mkEl "input" [] [("type", "text"), ("name", "date-yyyy")] "2024" (some 0)]

/-- A stand-in for `Date.parse` that knows one date: 9 April 2024, midnight UTC. -/
def sampleDateParse (s : String) : JsNum :=
  if s = "2024-04-09" then some 1712620800000 else none

/-- A form without date inputs whose two text inputs share the name `title`. -/
def titleFormDoc : Dom :=
  [mkEl "form" [] [] "" none,
   mkEl "input" [] [("type", "text"), ("name", "title")] "Dune" (some 0),
   mkEl "input" [] [("type", "text"), ("name", "title")] "Emma" (some 0)]

/-- A form whose file input `photo` holds a selection of two files. -/
def twoFilesDoc : Dom :=
  [mkEl "form" [] [] "" none,
   { mkEl "input" [] [("type", "file"), ("name", "photo")] "" (some 0) with
     files := some [⟨"a.png", "/pictures/a.png"⟩, ⟨"b.png", "/pictures/b.png"⟩] }]

/-- A required text input that `validate` has marked invalid (erred wrapper, blur handler
`7` attached) and that now holds two spaces. -/
def markedWhitespaceDoc : Dom :=
  [mkEl "form" [] [] "" none,
   mkEl "div" ["field", "validation-error"] [] "" (some 0),
   { mkEl "input" ["req"] [("type", "text")] "  " (some 1) with blur := [7] }]

/-! ## Lemmas on the document model -/

theorem modifyAt_getElem? (g : Element → Element) (d : Dom) (i j : Nat) :
    (modifyAt g d i)[j]? = if j = i then (d[j]?).map g else d[j]? := by
  induction d generalizing i j with
  | nil => cases i <;> simp [modifyAt]
  | cons e es ih =>
    cases i with
    | zero =>
      cases j with
      | zero => simp [modifyAt]
      | succ j => simp [modifyAt]
    | succ i =>
      cases j with
      | zero => simp [modifyAt]
      | succ j => simp [modifyAt, ih]

theorem modifyAt_length (g : Element → Element) (d : Dom) (i : Nat) :
    (modifyAt g d i).length = d.length := by
  induction d generalizing i with
  | nil => cases i <;> rfl
  | cons e es ih => cases i <;> simp [modifyAt, ih]

theorem Element.addClass_hasClass_self (c : String) (e : Element) :
    (e.addClass c).hasClass c = true := by
  unfold Element.addClass Element.hasClass
  by_cases h : e.classes.contains c = true
  · simp only [h, if_true]
  · simp only [h]
    simp

theorem Element.addClass_hasClass_mono (c c2 : String) (e : Element)
    (h : e.hasClass c2 = true) : (e.addClass c).hasClass c2 = true := by
  unfold Element.addClass Element.hasClass at *
  by_cases hc : e.classes.contains c = true
  · simpa only [hc, if_true] using h
  · simp only [hc]
    simp only [List.contains_eq_any_beq, List.any_eq_true] at h ⊢
    obtain ⟨x, hx, hx2⟩ := h
    exact ⟨x, by simp [hx], hx2⟩

theorem Element.addBlur_hasClass (h : Nat) (c : String) (e : Element) :
    (e.addBlur h).hasClass c = e.hasClass c := by
  unfold Element.addBlur Element.hasClass
  split <;> rfl

theorem Element.detach_hasClass (c : String) (e : Element) :
    e.detach.hasClass c = e.hasClass c := rfl

theorem hasClass_modifyAt_same (g : Element → Element) (d : Dom) (i j : Nat) (c : String)
    (hg : ∀ e, (g e).hasClass c = e.hasClass c) :
    hasClass (modifyAt g d i) j c = hasClass d j c := by
  unfold hasClass
  rw [modifyAt_getElem?]
  by_cases hji : j = i
  · simp only [hji, if_true]
    cases d[i]? with
    | none => rfl
    | some e => simp [hg]
  · simp only [hji, if_false]

theorem hasClass_modifyAt_mono (g : Element → Element) (d : Dom) (i j : Nat) (c : String)
    (hg : ∀ e, e.hasClass c = true → (g e).hasClass c = true)
    (h : hasClass d j c = true) : hasClass (modifyAt g d i) j c = true := by
  unfold hasClass at *
  rw [modifyAt_getElem?]
  by_cases hji : j = i
  · subst hji
    simp only [if_true]
    cases hd : d[j]? with
    | none => simp [hd] at h
    | some e =>
      simp only [hd] at h
      simpa using hg e h
  · simpa only [hji, if_false] using h

theorem hasClass_addClassOpt_mono (d : Dom) (w : Option Nat) (c c2 : String) (j : Nat)
    (h : hasClass d j c2 = true) : hasClass (addClassOpt d w c) j c2 = true := by
  cases w with
  | none => exact h
  | some i =>
    exact hasClass_modifyAt_mono _ d i j c2 (fun e he => Element.addClass_hasClass_mono c c2 e he) h

theorem hasClass_addClass_self (d : Dom) (w : Nat) (c : String) (hw : w < d.length) :
    hasClass (modifyAt (Element.addClass c) d w) w c = true := by
  unfold hasClass
  rw [modifyAt_getElem?]
  simp only [if_true]
  have : d[w]? = some d[w] := List.getElem?_eq_getElem hw
  rw [this]
  simp [Element.addClass_hasClass_self]

theorem elMatches_lt (d : Dom) (sel : Selector) (i : Nat) (h : elMatches d sel i = true) :
    i < d.length := by
  unfold elMatches at h
  by_contra hlt
  have : d[i]? = none := List.getElem?_eq_none (Nat.le_of_not_lt hlt)
  simp [this] at h

theorem closestAux_matches (d : Dom) (sel : Selector) (fuel i w : Nat)
    (h : closestAux d sel fuel i = some w) : elMatches d sel w = true := by
  induction fuel generalizing i with
  | zero => simp [closestAux] at h
  | succ n ih =>
    unfold closestAux at h
    by_cases hm : elMatches d sel i = true
    · simp only [hm, if_true, Option.some.injEq] at h
      exact h ▸ hm
    · simp only [hm] at h
      cases hp : parentOf d i with
      | none => simp [hp] at h
      | some p =>
        simp only [hp] at h
        exact ih p h

theorem closest_matches (d : Dom) (sel : Selector) (i w : Nat)
    (h : closest d sel i = some w) : elMatches d sel w = true :=
  closestAux_matches d sel (i + 1) i w h

theorem parentOf_lt (d : Dom) (i p : Nat) (hp : parentOf d i = some p) : p < i := by
  unfold parentOf at hp
  cases hd : d[i]? with
  | none => simp [hd] at hp
  | some e =>
    simp only [hd] at hp
    cases hpar : e.parent with
    | none => simp [hpar] at hp
    | some q =>
      simp only [hpar] at hp
      by_cases hq : q < i
      · simp only [hq, if_true, Option.some.injEq] at hp
        omega
      · simp [hq] at hp

theorem closestAux_fuel_irrel (d : Dom) (sel : Selector) (fuel1 fuel2 i : Nat)
    (h1 : i < fuel1) (h2 : i < fuel2) :
    closestAux d sel fuel1 i = closestAux d sel fuel2 i := by
  induction fuel1 generalizing fuel2 i with
  | zero => omega
  | succ n ih =>
    cases fuel2 with
    | zero => omega
    | succ m =>
      unfold closestAux
      by_cases hm : elMatches d sel i = true
      · simp only [hm, if_true]
      · simp only [hm]
        cases hp : parentOf d i with
        | none => rfl
        | some p =>
          have hlt := parentOf_lt d i p hp
          exact ih m p (by omega) (by omega)

/-- The walk of `closest` never runs out of steps: any larger fuel gives the same answer. -/
theorem closestAux_fuel (d : Dom) (sel : Selector) (fuel i : Nat) (h : i < fuel) :
    closestAux d sel fuel i = closest d sel i :=
  closestAux_fuel_irrel d sel fuel (i + 1) i h (Nat.lt_succ_self i)

/-! ## Lemmas on the validation loop -/

theorem validateField_snd (d : Dom) (h f : Nat) :
    (validateField d h f).2 = fieldFails d f := by
  unfold validateField fieldFails wrapperHasError detectedInvalid
  cases hw : hasClassOpt d (closest d (.cls "field") f) validationErrorClassName
  · cases hr : hasClass d f requiredClassName
    · simp [hw, hr]
    · cases he : d[f]? with
      | none => simp [hw, hr, he]
      | some e => cases hv : fieldIsValid e <;> simp [hw, hr, he, hv]
  · simp [hw]

theorem validateField_fst_of_pass (d : Dom) (h f : Nat) (hp : fieldFails d f = false) :
    (validateField d h f).1 = d := by
  unfold fieldFails wrapperHasError detectedInvalid at hp
  unfold validateField
  cases hw : hasClassOpt d (closest d (.cls "field") f) validationErrorClassName
  · cases hr : hasClass d f requiredClassName
    · simp [hw, hr]
    · cases he : d[f]? with
      | none => simp [hw, hr, he]
      | some e =>
        cases hv : fieldIsValid e
        · simp [hw, hr, he, hv] at hp
        · simp [hw, hr, he, hv]
  · simp [hw]

theorem validateFields_false (h : Nat) (fs : List Nat) (d : Dom) :
    (validateFields h d false fs).2 = false := by
  induction fs generalizing d with
  | nil => rfl
  | cons f rest ih =>
    simp only [validateFields]
    have : (if (validateField d h f).2 = true then false else false) = false := by
      split <;> rfl
    rw [this]
    exact ih _

theorem validateFields_true (h : Nat) (fs : List Nat) (d : Dom) :
    (validateFields h d true fs).2 = fs.all (fun f => !fieldFails d f) := by
  induction fs generalizing d with
  | nil => rfl
  | cons f rest ih =>
    simp only [validateFields, List.all_cons]
    cases hf : fieldFails d f
    · have h1 : (validateField d h f).2 = false := by rw [validateField_snd, hf]
      have h2 := validateField_fst_of_pass d h f hf
      rw [h1, h2]
      simpa using ih d
    · have h1 : (validateField d h f).2 = true := by rw [validateField_snd, hf]
      rw [h1]
      simpa using validateFields_false h rest _

/-! ## C1 -/

/-- C1: `validate` is three-valued.  It returns `null` exactly when the gathered field
set is empty; otherwise it returns `true` exactly when every gathered field passes and
`false` exactly when at least one gathered field fails, a field failing when its wrapper
already carried the error class or it is detected as invalid. -/
theorem validate_three_valued (d : Dom) (handler : Nat) (scope : List Nat) :
    ((validate d handler scope).2 = none ↔ (gatherFields d [] scope).2 = []) ∧
    ((validate d handler scope).2 = some true ↔
      ((gatherFields d [] scope).2 ≠ [] ∧
        ∀ f ∈ (gatherFields d [] scope).2,
          wrapperHasError (gatherFields d [] scope).1 f = false ∧
          detectedInvalid (gatherFields d [] scope).1 f = false)) ∧
    ((validate d handler scope).2 = some false ↔
      ∃ f ∈ (gatherFields d [] scope).2,
        wrapperHasError (gatherFields d [] scope).1 f = true ∨
        detectedInvalid (gatherFields d [] scope).1 f = true) := by
  have hres := validateFields_true handler (gatherFields d [] scope).2 (gatherFields d [] scope).1
  unfold validate
  cases hg : (gatherFields d [] scope).2 with
  | nil => simp [hg]
  | cons f rest =>
    rw [hg] at hres
    simp only [hg, List.isEmpty_cons, Bool.false_eq_true, if_false]
    rw [hres]
    refine ⟨by simp, ?_, ?_⟩
    · simp [fieldFails, List.all_eq_true]
    · simp only [Option.some.injEq, List.all_eq_false]
      constructor
      · rintro ⟨x, hx, hx2⟩
        refine ⟨x, hx, ?_⟩
        unfold fieldFails at hx2
        cases hw : wrapperHasError (gatherFields d [] scope).1 x
        · right
          simpa [hw] using hx2
        · left
          rfl
      · rintro ⟨x, hx, hx2⟩
        refine ⟨x, hx, ?_⟩
        unfold fieldFails
        rcases hx2 with hx2 | hx2 <;> simp [hx2]

/-! ## C2 -/

theorem fieldIsValid_text (e : Element)
    (hk : e.tag = "textarea" ∨ e.tag = "select" ∨
      (e.tag = "input" ∧ e.attr "type" = some "text")) :
    fieldIsValid e = false ↔ jsTrim e.value = "" := by
  unfold fieldIsValid
  rcases hk with hk | hk | ⟨hk, ht⟩
  · by_cases hv : jsTrim e.value = "" <;> simp [hk, hv]
  · by_cases hv : jsTrim e.value = "" <;> simp [hk, hv]
  · by_cases hv : jsTrim e.value = "" <;> simp [hk, ht, hv]

theorem fieldIsValid_file (e : Element)
    (hk : e.tag = "input" ∧ e.attr "type" = some "file") :
    fieldIsValid e = false ↔ (e.files = none ∨ e.files = some []) := by
  unfold fieldIsValid
  obtain ⟨hk, ht⟩ := hk
  cases hf : e.files with
  | none => simp [hk, ht]
  | some l =>
    cases l with
    | nil => simp [hk, ht]
    | cons x xs => simp [hk, ht]

theorem validateField_marks_iff (d : Dom) (handler f w : Nat) (e : Element)
    (he : d[f]? = some e) (hreq : e.hasClass requiredClassName = true)
    (hw : closest d (.cls "field") f = some w)
    (hclean : hasClass d w validationErrorClassName = false) :
    hasClass (validateField d handler f).1 w validationErrorClassName = true ↔
      fieldIsValid e = false := by
  have hwlt : w < d.length := elMatches_lt d _ w (closest_matches d _ f w hw)
  have hr : hasClass d f requiredClassName = true := by
    unfold hasClass
    simp [he, hreq]
  unfold validateField
  cases hv : fieldIsValid e
  · simp only [hw, hasClassOpt, hclean, hr, he, hv, addClassOpt, Bool.not_true, Bool.not_false,
      Bool.false_eq_true, if_false, if_true, iff_true]
    split
    · rw [hasClass_modifyAt_same _ _ _ _ _ (fun x => Element.addBlur_hasClass handler _ x)]
      exact hasClass_addClass_self d w _ hwlt
    · exact hasClass_addClass_self d w _ hwlt
  · simp [hw, hasClassOpt, hclean, hr, he, hv]

/-- C2: the emptiness rules for one field reached by `validate` that carries the class
`req` and whose wrapper does not already carry the error class.  A textarea, a select or
a text input gets the error class on its wrapper if and only if its trimmed value is the
empty string; a file input if and only if it has no selected file.  A field without the
class `req` whose wrapper is clean is left alone and does not make `validate` fail. -/
theorem validateField_required_rules (d : Dom) (handler f : Nat) (e : Element)
    (he : d[f]? = some e) :
    (∀ w, e.hasClass requiredClassName = true →
      closest d (.cls "field") f = some w →
      hasClass d w validationErrorClassName = false →
      (e.tag = "textarea" ∨ e.tag = "select" ∨
        (e.tag = "input" ∧ e.attr "type" = some "text")) →
      (hasClass (validateField d handler f).1 w validationErrorClassName = true ↔
        jsTrim e.value = "")) ∧
    (∀ w, e.hasClass requiredClassName = true →
      closest d (.cls "field") f = some w →
      hasClass d w validationErrorClassName = false →
      (e.tag = "input" ∧ e.attr "type" = some "file") →
      (hasClass (validateField d handler f).1 w validationErrorClassName = true ↔
        (e.files = none ∨ e.files = some []))) ∧
    (e.hasClass requiredClassName = false →
      wrapperHasError d f = false →
      validateField d handler f = (d, false)) := by
  refine ⟨?_, ?_, ?_⟩
  · intro w hreq hw hclean hk
    rw [validateField_marks_iff d handler f w e he hreq hw hclean]
    exact fieldIsValid_text e hk
  · intro w hreq hw hclean hk
    rw [validateField_marks_iff d handler f w e he hreq hw hclean]
    exact fieldIsValid_file e hk
  · intro hreq hclean
    have hr : hasClass d f requiredClassName = false := by
      unfold hasClass
      simp [he, hreq]
    unfold wrapperHasError at hclean
    unfold validateField
    simp [hclean, hr]

/-- Witness for C2: a required whitespace-only textarea gets its wrapper marked. -/
theorem validateField_required_rules_witness :
    hasClass (validateField requiredTextareaDoc 0 1).1 0 validationErrorClassName = true :=
  ((validateField_required_rules requiredTextareaDoc 0 1
      (mkEl "textarea" ["req"] [] "  " (some 0)) (by decide)).1 0
      (by decide) (by decide) (by decide) (Or.inl (by decide))).mpr (by decide)

/-! ## C3 -/

theorem hasClass_removeAll (d : Dom) (l : List Nat) (n : Nat) (c : String) :
    hasClass (removeAll d l) n c = hasClass d n c := by
  induction l generalizing d with
  | nil => rfl
  | cons i rest ih =>
    simp only [removeAll]
    rw [ih]
    exact hasClass_modifyAt_same _ d i n c (fun e => Element.detach_hasClass c e)

theorem hasClass_gatherFields (d : Dom) (acc scope : List Nat) (n : Nat) (c : String) :
    hasClass (gatherFields d acc scope).1 n c = hasClass d n c := by
  induction scope generalizing d acc with
  | nil => rfl
  | cons el rest ih =>
    unfold gatherFields
    split
    · simp only []
      rw [ih, hasClass_removeAll]
    · exact ih _ _

theorem hasClass_validateField_mono (d : Dom) (h f n : Nat) (c : String)
    (hc : hasClass d n c = true) : hasClass (validateField d h f).1 n c = true := by
  unfold validateField
  simp only []
  split
  · exact hc
  · split
    · exact hc
    · split
      · exact hc
      · split
        · split
          · rw [hasClass_modifyAt_same _ _ _ _ _ (fun x => Element.addBlur_hasClass h _ x)]
            exact hasClass_addClassOpt_mono d _ _ c n hc
          · exact hasClass_addClassOpt_mono d _ _ c n hc
        · exact hc

theorem hasClass_validateFields_mono (h : Nat) (fs : List Nat) (d : Dom) (r : Bool)
    (n : Nat) (c : String) (hc : hasClass d n c = true) :
    hasClass (validateFields h d r fs).1 n c = true := by
  induction fs generalizing d r with
  | nil => exact hc
  | cons f rest ih =>
    simp only [validateFields]
    exact ih _ _ (hasClass_validateField_mono d h f n c hc)

theorem hasClass_validate_mono (d : Dom) (h : Nat) (scope : List Nat) (n : Nat) (c : String)
    (hc : hasClass d n c = true) : hasClass (validate d h scope).1 n c = true := by
  have hg : hasClass (gatherFields d [] scope).1 n c = true := by
    rw [hasClass_gatherFields]
    exact hc
  unfold validate
  simp only []
  split
  · exact hg
  · exact hasClass_validateFields_mono h _ _ true n c hg

/-- C3, as the code has it: when the wrapper of a gathered field, resolved once
`validate` has removed the `.submission-error` elements of the matched forms, carries the
error class, then whatever the field's value, type or required flag `validate` returns
`false`, the wrapper still carries the error class afterwards, and the field's iteration
changes nothing (it is not inspected).  `validate` never removes the error class from
any element. -/
theorem validate_error_persists (d : Dom) (handler : Nat) (scope : List Nat) (f w : Nat)
    (hf : f ∈ (gatherFields d [] scope).2)
    (hw : closest (gatherFields d [] scope).1 (.cls "field") f = some w)
    (he : hasClass d w validationErrorClassName = true) :
    (validate d handler scope).2 = some false ∧
    hasClass (validate d handler scope).1 w validationErrorClassName = true ∧
    (∀ d2 : Dom, closest d2 (.cls "field") f = some w →
      hasClass d2 w validationErrorClassName = true →
      validateField d2 handler f = (d2, true)) ∧
    (∀ n, hasClass d n validationErrorClassName = true →
      hasClass (validate d handler scope).1 n validationErrorClassName = true) := by
  refine ⟨?_, hasClass_validate_mono d handler scope w _ he, ?_, ?_⟩
  · have hfail : fieldFails (gatherFields d [] scope).1 f = true := by
      unfold fieldFails wrapperHasError
      rw [hw]
      simp only [hasClassOpt]
      rw [hasClass_gatherFields, he]
      rfl
    have hne : (gatherFields d [] scope).2.isEmpty = false := by
      cases hl : (gatherFields d [] scope).2 with
      | nil => simp [hl] at hf
      | cons x xs => rfl
    unfold validate
    simp only [hne, Bool.false_eq_true, if_false, Option.some.injEq]
    rw [validateFields_true, List.all_eq_false]
    exact ⟨f, hf, by simp [hfail]⟩
  · intro d2 hw2 he2
    unfold validateField
    simp [hw2, hasClassOpt, he2]
  · intro n hn
    exact hasClass_validate_mono d handler scope n _ hn

/-- Witness for C3: a filled, optional input in an erred wrapper keeps `validate` at
`false`. -/
theorem validate_error_persists_witness :
    (validate erredFieldDoc 0 [0]).2 = some false ∧
    hasClass (validate erredFieldDoc 0 [0]).1 1 validationErrorClassName = true :=
  ⟨(validate_error_persists erredFieldDoc 0 [0] 2 1 (by decide) (by decide) (by decide)).1,
   (validate_error_persists erredFieldDoc 0 [0] 2 1 (by decide) (by decide) (by decide)).2.1⟩

/-- C3 as stated fails: the input's wrapper carries the error class before the pass, the
input is validated, and `validate` returns `true`, because the pass first removes the
`.submission-error` element that holds the input. -/
theorem validate_error_persists_counterexample :
    closest fieldInsideSubmissionErrorDoc (.cls "field") 3 = some 1 ∧
    hasClass fieldInsideSubmissionErrorDoc 1 validationErrorClassName = true ∧
    3 ∈ (gatherFields fieldInsideSubmissionErrorDoc [] [0, 3]).2 ∧
    (validate fieldInsideSubmissionErrorDoc 0 [0, 3]).2 = some true := by
  decide

/-! ## C4 -/

/-- C4 fails on the code: a required, empty text input without a `.field` ancestor gets a
second blur listener from a second `validate` call, each call registering its own
function object. -/
theorem validate_twice_duplicate_handlers :
    blurListeners (validate unwrappedTextInputDoc 0 [0]).1 2 = [0] ∧
    blurListeners (validate (validate unwrappedTextInputDoc 0 [0]).1 1 [0]).1 2 = [0, 1] := by
  decide

/-! ## C5 -/

/-- C5 fails on the code: after `clearValidation` on the form, the `.field` wrapper below
it still carries the class `validation-error`. -/
theorem clearValidation_keeps_error_class :
    isDescendant erredFieldDoc 0 1 = true ∧
    hasClass erredFieldDoc 1 validationErrorClassName = true ∧
    hasClass (clearValidation erredFieldDoc [0]) 1 validationErrorClassName = true := by
  decide

/-! ## C6 -/

theorem parseInt_ne_empty (s : String) (n : Int) (h : parseInt s = some n) : s ≠ "" := by
  intro hs
  subst hs
  have h0 : parseInt "" = none := by decide
  rw [h0] at h
  cases h

theorem attrTruthy_of_parse (s : String) (n : Int) (h : parseInt s = some n) :
    attrTruthy (some s) = true := by
  have := parseInt_ne_empty s n h
  simp [attrTruthy, this]

/-- C6, as the code has it, for an entered value and declared bounds that are safe
integers: with the entered value the integer `v`, a declared non-zero minimum `lo` and
the upper bound `hi` (the declared non-zero maximum, or `Number.MAX_SAFE_INTEGER` when
only the minimum is declared), `lo <= hi`, the listener stores `v` clamped into
`[lo, hi]`; with only a non-zero maximum `hi` declared it stores `hi` when `v > hi` and
`v` otherwise, applying no lower bound. -/
theorem minMaxChangeListener_clamp (e : Element) (v : Int)
    (hv : parseInt e.value = some v) (hsafe : isSafeInteger v) :
    (∀ smin smax lo hi, e.attr "min" = some smin → e.attr "max" = some smax →
      parseInt smin = some lo → parseInt smax = some hi →
      isSafeInteger lo → isSafeInteger hi → lo ≠ 0 → hi ≠ 0 → lo ≤ hi →
      minMaxChangeListener e = some (specClamp (some lo) (some hi) v)) ∧
    (∀ smin lo, e.attr "min" = some smin → e.attr "max" = none →
      parseInt smin = some lo → isSafeInteger lo → lo ≠ 0 →
      minMaxChangeListener e = some (specClamp (some lo) none v)) ∧
    (∀ smax hi, e.attr "min" = none → e.attr "max" = some smax →
      parseInt smax = some hi → isSafeInteger hi → hi ≠ 0 →
      minMaxChangeListener e = some (if v > hi then hi else v)) := by
  have _hs := hsafe
  refine ⟨?_, ?_, ?_⟩
  · intro smin smax lo hi hmin hmax hlo hhi _ _ hlo0 hhi0 hle
    have t1 := attrTruthy_of_parse smin lo hlo
    have t2 := attrTruthy_of_parse smax hi hhi
    unfold minMaxChangeListener specClamp
    simp only [hv, hmin, hmax, t1, t2, if_true, parseIntAttr, hlo, hhi, numTruthy, jsLt, jsGt,
      Option.getD_some]
    by_cases h1 : v < lo
    · have h2 : ¬ lo > hi := by omega
      simp [h1, h2, hlo0, hhi0]
    · by_cases h2 : v > hi <;> simp [h1, h2, hlo0, hhi0, jsGt]
  · intro smin lo hmin hmax hlo hlosafe hlo0
    have hle : lo ≤ maxSafeInteger := hlosafe.2
    have t1 := attrTruthy_of_parse smin lo hlo
    have t0 : attrTruthy none = false := rfl
    unfold minMaxChangeListener specClamp
    simp only [hv, hmin, hmax, t1, t0, if_true, parseIntAttr, hlo, numTruthy, jsLt, jsGt,
      Option.getD_some, Option.getD_none]
    have hm : maxSafeInteger ≠ 0 := by decide
    by_cases h1 : v < lo
    · have h2 : ¬ lo > maxSafeInteger := by omega
      simp [h1, h2, hlo0, hm]
    · by_cases h2 : v > maxSafeInteger <;> simp [h1, h2, hlo0, hm, jsGt]
  · intro smax hi hmin hmax hhi _ hhi0
    have t2 := attrTruthy_of_parse smax hi hhi
    have t0 : attrTruthy none = false := rfl
    unfold minMaxChangeListener
    simp only [hv, hmin, hmax, t2, t0, if_true, parseIntAttr, hhi, numTruthy, jsLt, jsGt]
    by_cases h2 : v > hi <;> simp [h2, hhi0, jsGt]

/-- Witness for C6: `min=5`, `max=10` maps `2` to `5`, `15` to `10` and `7` to `7`. -/
theorem minMaxChangeListener_clamp_witness :
    minMaxChangeListener (numberInput [("min", "5"), ("max", "10")] "2") = some 5 ∧
    minMaxChangeListener (numberInput [("min", "5"), ("max", "10")] "15") = some 10 ∧
    minMaxChangeListener (numberInput [("min", "5"), ("max", "10")] "7") = some 7 :=
  ⟨(minMaxChangeListener_clamp (numberInput [("min", "5"), ("max", "10")] "2") 2
      (by decide) ⟨by decide, by decide⟩).1 "5" "10" 5 10 (by decide) (by decide) (by decide)
      (by decide) ⟨by decide, by decide⟩ ⟨by decide, by decide⟩ (by decide) (by decide)
      (by decide),
   (minMaxChangeListener_clamp (numberInput [("min", "5"), ("max", "10")] "15") 15
      (by decide) ⟨by decide, by decide⟩).1 "5" "10" 5 10 (by decide) (by decide) (by decide)
      (by decide) ⟨by decide, by decide⟩ ⟨by decide, by decide⟩ (by decide) (by decide)
      (by decide),
   (minMaxChangeListener_clamp (numberInput [("min", "5"), ("max", "10")] "7") 7
      (by decide) ⟨by decide, by decide⟩).1 "5" "10" 5 10 (by decide) (by decide) (by decide)
      (by decide) ⟨by decide, by decide⟩ ⟨by decide, by decide⟩ (by decide) (by decide)
      (by decide)⟩

/-- C6 as stated fails: with only `max=10` declared and `-5` entered, the claim's clamp
gives the defaulted lower bound `0`, while the listener stores `-5`. -/
theorem minMaxChangeListener_clamp_counterexample :
    parseInt (numberInput [("max", "10")] "-5").value = some (-5) ∧
    specClamp none (some 10) (-5) = 0 ∧
    minMaxChangeListener (numberInput [("max", "10")] "-5") = some (-5) ∧
    minMaxChangeListener (numberInput [("max", "10")] "-5") ≠
      some (specClamp none (some 10) (-5)) := by
  decide

/-! ## C7 -/

theorem maxlengthChangeListener_eq (e : Element) :
    maxlengthChangeListener e = .ok (parseInt e.value) := by
  unfold maxlengthChangeListener numberLength jsGt
  simp

/-- C7 fails on the code: with `maxlength=3` and `12345` entered the listener stores
`12345`; the first three digits would give `123`. -/
theorem maxlengthChangeListener_no_truncation :
    maxlengthChangeListener (numberInput [("maxlength", "3")] "12345") = .ok (some 12345) ∧
    specTruncate 3 12345 = 123 := by
  refine ⟨?_, by decide⟩
  rw [maxlengthChangeListener_eq]
  have h : parseInt (numberInput [("maxlength", "3")] "12345").value = some 12345 := by decide
  rw [h]

/-! ## Lemmas on plain objects -/

theorem JsObject.get_of_allAt (o : JsObject) (k : String) (v : JsValue)
    (hall : o.allAt k v) (hkey : o.hasKey k) : o.get k = some v := by
  induction o with
  | nil =>
    obtain ⟨x, hx⟩ := hkey
    simp at hx
  | cons kv rest ih =>
    unfold JsObject.get
    by_cases hk : kv.1 = k
    · have hv := hall kv (by simp) hk
      simp [List.find?, hk, hv]
    · have hne : (kv.1 == k) = false := by simpa using hk
      simp only [List.find?, hne]
      apply ih
      · intro x hx hxk
        exact hall x (by simp [hx]) hxk
      · obtain ⟨x, hx⟩ := hkey
        simp only [List.mem_cons] at hx
        rcases hx with hx | hx
        · exact absurd (by rw [← hx]) hk
        · exact ⟨x, hx⟩

theorem JsObject.setOwn_allAt (o : JsObject) (k : String) (v : JsValue) :
    (o.setOwn k v).allAt k v := by
  intro kv hkv hk
  unfold JsObject.setOwn at hkv
  split at hkv
  · simp only [List.mem_map] at hkv
    obtain ⟨x, _, hx⟩ := hkv
    by_cases hxk : x.1 = k
    · simp only [hxk, beq_self_eq_true, if_true] at hx
      rw [← hx]
    · have hne : (x.1 == k) = false := by simpa using hxk
      simp only [hne, Bool.false_eq_true, if_false] at hx
      rw [hx] at hxk
      exact absurd hk hxk
  · rename_i hany
    simp only [List.mem_append, List.mem_singleton] at hkv
    rcases hkv with hx | hx
    · exfalso
      apply hany
      simp only [List.any_eq_true]
      exact ⟨kv, hx, by simp [hk]⟩
    · rw [hx]

theorem JsObject.setOwn_hasKey (o : JsObject) (k : String) (v : JsValue) :
    (o.setOwn k v).hasKey k := by
  unfold JsObject.setOwn JsObject.hasKey
  split
  · rename_i hany
    simp only [List.any_eq_true] at hany
    obtain ⟨x, hx, hxk⟩ := hany
    refine ⟨v, ?_⟩
    simp only [List.mem_map]
    refine ⟨x, hx, ?_⟩
    have hxk2 : x.1 = k := by simpa using hxk
    simp [hxk2]
  · exact ⟨v, by simp⟩

theorem JsObject.mem_setOwn_other (o : JsObject) (k : String) (v : JsValue)
    (kv : String × JsValue) (hne : kv.1 ≠ k) : kv ∈ o.setOwn k v ↔ kv ∈ o := by
  unfold JsObject.setOwn
  split
  · simp only [List.mem_map]
    constructor
    · rintro ⟨x, hx, hxe⟩
      by_cases hxk : x.1 = k
      · simp only [hxk, beq_self_eq_true, if_true] at hxe
        rw [← hxe] at hne
        exact absurd rfl hne
      · have hf : (x.1 == k) = false := by simpa using hxk
        simp only [hf, Bool.false_eq_true, if_false] at hxe
        rw [← hxe]
        exact hx
    · intro hx
      refine ⟨kv, hx, ?_⟩
      have hf : (kv.1 == k) = false := by simpa using hne
      simp [hf]
  · simp only [List.mem_append, List.mem_singleton]
    constructor
    · rintro (hx | hx)
      · exact hx
      · rw [hx] at hne
        exact absurd rfl hne
    · intro hx
      exact Or.inl hx

theorem JsObject.setOwn_other_allAt (o : JsObject) (k n : String) (v w : JsValue)
    (hne : n ≠ k) (h : o.allAt n w) : (o.setOwn k v).allAt n w := by
  intro kv hkv hk
  have : kv.1 ≠ k := by rw [hk]; exact hne
  exact h kv ((JsObject.mem_setOwn_other o k v kv this).mp hkv) hk

theorem JsObject.setOwn_other_hasKey (o : JsObject) (k n : String) (v : JsValue)
    (hne : n ≠ k) (h : o.hasKey n) : (o.setOwn k v).hasKey n := by
  obtain ⟨x, hx⟩ := h
  exact ⟨x, (JsObject.mem_setOwn_other o k v (n, x) hne).mpr hx⟩

theorem JsObject.get_setOwn_same (o : JsObject) (k : String) (v : JsValue) :
    (o.setOwn k v).get k = some v :=
  JsObject.get_of_allAt _ k v (JsObject.setOwn_allAt o k v) (JsObject.setOwn_hasKey o k v)

theorem JsObject.find_map_other (o : JsObject) (k n : String) (v : JsValue) (hne : n ≠ k) :
    (o.map (fun kv => if kv.1 == k then (kv.1, v) else kv)).find? (fun kv => kv.1 == n) =
      o.find? (fun kv => kv.1 == n) := by
  induction o with
  | nil => rfl
  | cons kv rest ih =>
    simp only [List.map_cons, List.find?]
    by_cases hk : kv.1 = k
    · have h1 : (kv.1 == k) = true := by simp [hk]
      have h2 : (kv.1 == n) = false := by
        simp only [beq_eq_false_iff_ne, ne_eq]
        intro hh
        exact hne (hh.symm.trans hk)
      simp only [h1, if_true, h2]
      exact ih
    · have hf : (kv.1 == k) = false := by simpa using hk
      simp only [hf, Bool.false_eq_true, if_false]
      cases hkn : (kv.1 == n)
      · exact ih
      · rfl

theorem JsObject.get_setOwn_other (o : JsObject) (k n : String) (v : JsValue) (hne : n ≠ k) :
    (o.setOwn k v).get n = o.get n := by
  unfold JsObject.setOwn
  split
  · unfold JsObject.get
    rw [JsObject.find_map_other o k n v hne]
  · unfold JsObject.get
    congr 1
    rw [List.find?_append]
    have hn2 : (k == n) = false := by
      simp only [beq_eq_false_iff_ne, ne_eq]
      exact fun hh => hne hh.symm
    cases List.find? (fun kv => kv.1 == n) o <;> simp [List.find?, hn2]

theorem JsObject.hasKey_of_setOwn (o : JsObject) (k n : String) (v : JsValue)
    (h : (o.setOwn k v).hasKey n) : n = k ∨ o.hasKey n := by
  by_cases hne : n = k
  · exact Or.inl hne
  · obtain ⟨x, hx⟩ := h
    exact Or.inr ⟨x, (JsObject.mem_setOwn_other o k v (n, x) hne).mp hx⟩

theorem JsObject.set_ordinary (o : JsObject) (k : String) (v : JsValue)
    (hk : k ≠ "__proto__") : o.set k v = o.setOwn k v := by
  unfold JsObject.set
  have : (k == "__proto__") = false := by simpa using hk
  simp only [this, Bool.false_eq_true, if_false]

theorem JsObject.set_proto (o : JsObject) (v : JsValue) : o.set "__proto__" v = o := by
  unfold JsObject.set
  simp

theorem JsObject.set_allAt (o : JsObject) (k : String) (v : JsValue)
    (hk : k ≠ "__proto__") : (o.set k v).allAt k v := by
  rw [JsObject.set_ordinary o k v hk]
  exact JsObject.setOwn_allAt o k v

theorem JsObject.set_hasKey (o : JsObject) (k : String) (v : JsValue)
    (hk : k ≠ "__proto__") : (o.set k v).hasKey k := by
  rw [JsObject.set_ordinary o k v hk]
  exact JsObject.setOwn_hasKey o k v

theorem JsObject.mem_set_other (o : JsObject) (k : String) (v : JsValue)
    (kv : String × JsValue) (hne : kv.1 ≠ k) : kv ∈ o.set k v ↔ kv ∈ o := by
  by_cases hk : k = "__proto__"
  · subst hk
    rw [JsObject.set_proto]
  · rw [JsObject.set_ordinary o k v hk]
    exact JsObject.mem_setOwn_other o k v kv hne

theorem JsObject.set_other_allAt (o : JsObject) (k n : String) (v w : JsValue)
    (hne : n ≠ k) (h : o.allAt n w) : (o.set k v).allAt n w := by
  intro kv hkv hk
  have : kv.1 ≠ k := by rw [hk]; exact hne
  exact h kv ((JsObject.mem_set_other o k v kv this).mp hkv) hk

theorem JsObject.set_other_hasKey (o : JsObject) (k n : String) (v : JsValue)
    (hne : n ≠ k) (h : o.hasKey n) : (o.set k v).hasKey n := by
  obtain ⟨x, hx⟩ := h
  exact ⟨x, (JsObject.mem_set_other o k v (n, x) hne).mpr hx⟩

theorem JsObject.get_set_same (o : JsObject) (k : String) (v : JsValue)
    (hk : k ≠ "__proto__") : (o.set k v).get k = some v :=
  JsObject.get_of_allAt _ k v (JsObject.set_allAt o k v hk) (JsObject.set_hasKey o k v hk)

theorem JsObject.get_set_other (o : JsObject) (k n : String) (v : JsValue) (hne : n ≠ k) :
    (o.set k v).get n = o.get n := by
  by_cases hk : k = "__proto__"
  · subst hk
    rw [JsObject.set_proto]
  · rw [JsObject.set_ordinary o k v hk]
    exact JsObject.get_setOwn_other o k n v hne

theorem JsObject.hasKey_of_set (o : JsObject) (k n : String) (v : JsValue)
    (h : (o.set k v).hasKey n) : (n = k ∧ k ≠ "__proto__") ∨ o.hasKey n := by
  by_cases hk : k = "__proto__"
  · subst hk
    rw [JsObject.set_proto] at h
    exact Or.inr h
  · rw [JsObject.set_ordinary o k v hk] at h
    rcases JsObject.hasKey_of_setOwn o k n v h with h1 | h1
    · exact Or.inl ⟨h1, hk⟩
    · exact Or.inr h1

theorem JsObject.set_noProto (o : JsObject) (k : String) (v : JsValue)
    (h : ¬ o.hasKey "__proto__") : ¬ (o.set k v).hasKey "__proto__" := by
  intro hh
  rcases JsObject.hasKey_of_set o k "__proto__" v hh with ⟨h1, h2⟩ | h1
  · exact h2 h1.symm
  · exact h h1

theorem JsObject.get_mem (o : JsObject) (k : String) (v : JsValue)
    (h : o.get k = some v) : (k, v) ∈ o := by
  unfold JsObject.get at h
  cases hf : o.find? (fun kv => kv.1 == k) with
  | none => simp [hf] at h
  | some kv =>
    simp only [hf, Option.map_some', Option.some.injEq] at h
    have hmem := List.mem_of_find?_eq_some hf
    have hkey := List.find?_some hf
    have hk : kv.1 = k := by simpa using hkey
    have : kv = (k, v) := by
      cases kv
      simp only [Prod.mk.injEq]
      exact ⟨hk, h⟩
    rw [← this]
    exact hmem

theorem JsObject.get_none_hasKey (o : JsObject) (k : String) (h : o.get k = none) :
    ¬ o.hasKey k := by
  rintro ⟨v, hv⟩
  unfold JsObject.get at h
  simp only [Option.map_eq_none', List.find?_eq_none] at h
  have := h (k, v) hv
  simp at this

/-! ## Lemmas on `getValues` -/

theorem collapseFileList_get_other (A : JsObject) (n k : String) (gs : List File)
    (hne : n ≠ k) : (collapseFileList A k gs).get n = A.get n := by
  induction gs generalizing A with
  | nil => rfl
  | cons g rest ih =>
    simp only [collapseFileList]
    rw [ih, JsObject.get_set_other _ _ _ _ hne]

theorem collapseFileList_get_last (A : JsObject) (n : String) (fs : List File) (last : File)
    (hn : n ≠ "__proto__") (h : fs.getLast? = some last) :
    (collapseFileList A n fs).get n = some (.str last.path) := by
  induction fs generalizing A with
  | nil => simp at h
  | cons x rest ih =>
    cases rest with
    | nil =>
      simp only [List.getLast?_singleton, Option.some.injEq] at h
      simp only [collapseFileList]
      rw [← h]
      exact JsObject.get_set_same A n _ hn
    | cons y r =>
      simp only [collapseFileList]
      have h2 : (y :: r).getLast? = some last := by
        rw [List.getLast?_cons_cons] at h
        exact h
      have := ih (A.set n (.str x.path)) h2
      simpa only [collapseFileList] using this

theorem collapseFileList_hasKey (A : JsObject) (n k : String) (gs : List File)
    (h : (collapseFileList A k gs).hasKey n) : n = k ∨ A.hasKey n := by
  induction gs generalizing A with
  | nil => exact Or.inr h
  | cons g rest ih =>
    simp only [collapseFileList] at h
    rcases ih _ h with h1 | h1
    · exact Or.inl h1
    · rcases JsObject.hasKey_of_set A k n _ h1 with ⟨h2, _⟩ | h2
      · exact Or.inl h2
      · exact Or.inr h2

theorem collapseFiles_get_nonfile (A : JsObject) (E : List (String × JsValue)) (n : String)
    (h : ∀ kv ∈ E, kv.1 = n → ∀ g gs, kv.2 ≠ .files (g :: gs)) :
    (collapseFiles A E).get n = A.get n := by
  induction E generalizing A with
  | nil => rfl
  | cons kv rest ih =>
    have hrest : ∀ x ∈ rest, x.1 = n → ∀ g gs, x.2 ≠ .files (g :: gs) :=
      fun x hx => h x (by simp [hx])
    obtain ⟨k, val⟩ := kv
    cases val with
    | str t =>
      simp only [collapseFiles]
      exact ih A hrest
    | num t =>
      simp only [collapseFiles]
      exact ih A hrest
    | files gs =>
      simp only [collapseFiles]
      rw [ih _ hrest]
      by_cases hnk : k = n
      · cases gs with
        | nil => rfl
        | cons g gs2 => exact absurd rfl (h (k, .files (g :: gs2)) (by simp) hnk g gs2)
      · exact collapseFileList_get_other A n k gs (fun hh => hnk hh.symm)

theorem collapseFiles_get_file (A : JsObject) (E : List (String × JsValue)) (n : String)
    (fs : List File) (last : File) (hn : n ≠ "__proto__") (hlast : fs.getLast? = some last)
    (hall : JsObject.allAt E n (.files fs))
    (h : JsObject.hasKey E n ∨ A.get n = some (.str last.path)) :
    (collapseFiles A E).get n = some (.str last.path) := by
  induction E generalizing A with
  | nil =>
    rcases h with ⟨x, hx⟩ | h
    · simp at hx
    · exact h
  | cons kv rest ih =>
    have hrest : JsObject.allAt rest n (.files fs) := fun x hx => hall x (by simp [hx])
    obtain ⟨k, val⟩ := kv
    by_cases hk : k = n
    · have hval : val = .files fs := hall (k, val) (by simp) hk
      subst hval
      subst hk
      simp only [collapseFiles]
      exact ih _ hrest (Or.inr (collapseFileList_get_last A k fs last hn hlast))
    · have hstep : ∀ B : JsObject, B.get n = A.get n →
          (collapseFiles B rest).get n = some (.str last.path) := by
        intro B hB
        apply ih B hrest
        rcases h with ⟨x, hx⟩ | h
        · simp only [List.mem_cons, Prod.mk.injEq] at hx
          rcases hx with ⟨hx1, _⟩ | hx
          · exact absurd hx1.symm hk
          · exact Or.inl ⟨x, hx⟩
        · exact Or.inr (hB.trans h)
      cases val with
      | str t =>
        simp only [collapseFiles]
        exact hstep A rfl
      | num t =>
        simp only [collapseFiles]
        exact hstep A rfl
      | files gs =>
        simp only [collapseFiles]
        exact hstep _ (collapseFileList_get_other A n k gs (fun hh => hk hh.symm))

theorem collapseFiles_hasKey (A : JsObject) (E : List (String × JsValue)) (n : String)
    (h : (collapseFiles A E).hasKey n) : A.hasKey n ∨ JsObject.hasKey E n := by
  induction E generalizing A with
  | nil => exact Or.inl h
  | cons kv rest ih =>
    have lift : JsObject.hasKey rest n → JsObject.hasKey (kv :: rest) n := by
      rintro ⟨x, hx⟩
      exact ⟨x, by simp [hx]⟩
    obtain ⟨k, val⟩ := kv
    cases val with
    | str t =>
      simp only [collapseFiles] at h
      rcases ih A h with h1 | h1
      · exact Or.inl h1
      · exact Or.inr (lift h1)
    | num t =>
      simp only [collapseFiles] at h
      rcases ih A h with h1 | h1
      · exact Or.inl h1
      · exact Or.inr (lift h1)
    | files gs =>
      simp only [collapseFiles] at h
      rcases ih _ h with h1 | h1
      · rcases collapseFileList_hasKey A n k gs h1 with h2 | h2
        · exact Or.inr ⟨.files gs, by simp [h2]⟩
        · exact Or.inl h2
      · exact Or.inr (lift h1)

theorem collectValues_hasKey (d : Dom) (A : JsObject) (els : List Nat) (n : String)
    (h : (collectValues d A els).hasKey n) :
    A.hasKey n ∨ ∃ f ∈ els, propertyKey (elName d f) = n := by
  induction els generalizing A with
  | nil => exact Or.inl h
  | cons el rest ih =>
    simp only [collectValues] at h
    rcases ih _ h with h1 | ⟨f, hf, hfn⟩
    · rcases JsObject.hasKey_of_set A _ n _ h1 with ⟨h2, _⟩ | h2
      · exact Or.inr ⟨el, by simp, h2.symm⟩
      · exact Or.inl h2
    · exact Or.inr ⟨f, by simp [hf], hfn⟩

theorem collectValues_allAt (d : Dom) (A : JsObject) (els : List Nat) (n : String)
    (f : Nat) (v : JsValue) (hv : elValue d f = v) (hn : propertyKey (elName d f) = n)
    (hproto : n ≠ "__proto__")
    (huniq : ∀ g ∈ els, propertyKey (elName d g) = n → g = f)
    (h : f ∈ els ∨ (A.allAt n v ∧ A.hasKey n)) :
    (collectValues d A els).allAt n v ∧ (collectValues d A els).hasKey n := by
  induction els generalizing A with
  | nil =>
    rcases h with h | h
    · simp at h
    · exact h
  | cons el rest ih =>
    simp only [collectValues]
    have hu : ∀ g ∈ rest, propertyKey (elName d g) = n → g = f :=
      fun g hg => huniq g (by simp [hg])
    apply ih _ hu
    by_cases hk : propertyKey (elName d el) = n
    · have hel : el = f := huniq el (by simp) hk
      right
      rw [hk, hel, hv]
      exact ⟨JsObject.set_allAt A n v hproto, JsObject.set_hasKey A n v hproto⟩
    · rcases h with h | ⟨h1, h2⟩
      · simp only [List.mem_cons] at h
        rcases h with h | h
        · rw [← h] at hk
          exact absurd hn hk
        · exact Or.inl h
      · right
        exact ⟨JsObject.set_other_allAt A _ n _ v (fun hh => hk hh.symm) h1,
          JsObject.set_other_hasKey A _ n _ (fun hh => hk hh.symm) h2⟩

theorem JsObject.functional_set (o : JsObject) (k : String) (v : JsValue)
    (h : o.functional) : (o.set k v).functional := by
  by_cases hk : k = "__proto__"
  · subst hk
    rw [JsObject.set_proto]
    exact h
  · intro kv1 h1 kv2 h2 hkey
    by_cases hk1 : kv1.1 = k
    · rw [JsObject.set_allAt o k v hk kv1 h1 hk1,
        JsObject.set_allAt o k v hk kv2 h2 (hkey.symm.trans hk1)]
    · have hk2 : kv2.1 ≠ k := fun hh => hk1 (hkey.trans hh)
      exact h kv1 ((JsObject.mem_set_other o k v kv1 hk1).mp h1) kv2
        ((JsObject.mem_set_other o k v kv2 hk2).mp h2) hkey

theorem JsObject.allAt_of_get (o : JsObject) (k : String) (v : JsValue)
    (hf : o.functional) (hg : o.get k = some v) : o.allAt k v := by
  intro kv hkv hk
  exact hf kv hkv (k, v) (JsObject.get_mem o k v hg) hk

theorem collectValues_functional (d : Dom) (A : JsObject) (els : List Nat)
    (h : A.functional) : (collectValues d A els).functional := by
  induction els generalizing A with
  | nil => exact h
  | cons el rest ih =>
    simp only [collectValues]
    exact ih _ (JsObject.functional_set A _ _ h)

theorem collectValues_noProto (d : Dom) (A : JsObject) (els : List Nat)
    (h : ¬ A.hasKey "__proto__") : ¬ (collectValues d A els).hasKey "__proto__" := by
  induction els generalizing A with
  | nil => exact h
  | cons el rest ih =>
    simp only [collectValues]
    exact ih _ (JsObject.set_noProto A _ _ h)

theorem collectValues_get (d : Dom) (A : JsObject) (els : List Nat) (k : String)
    (hk : k ≠ "__proto__") :
    (collectValues d A els).get k =
      (match lastNamedValue d k els with
       | some v => some v
       | none => A.get k) := by
  induction els generalizing A with
  | nil => rfl
  | cons f rest ih =>
    simp only [collectValues, lastNamedValue]
    rw [ih]
    cases hl : lastNamedValue d k rest with
    | some v => rfl
    | none =>
      simp only []
      by_cases hkey : propertyKey (elName d f) = k
      · have hb : (propertyKey (elName d f) == k) = true := by simp [hkey]
        simp only [hb, if_true]
        rw [hkey]
        exact JsObject.get_set_same A k _ hk
      · have hb : (propertyKey (elName d f) == k) = false := by simpa using hkey
        simp only [hb, Bool.false_eq_true, if_false]
        exact JsObject.get_set_other A _ k _ (fun hh => hkey hh.symm)

theorem collapseFiles_get (V : JsObject) (k : String) (hf : V.functional)
    (hk : k ≠ "__proto__") :
    (collapseFiles V V).get k = (V.get k).map collapsedValue := by
  cases hg : V.get k with
  | none =>
    rw [collapseFiles_get_nonfile, hg]
    · rfl
    · intro kv hkv hkey
      exact absurd ⟨kv.2, by rw [← hkey]; exact hkv⟩ (JsObject.get_none_hasKey V k hg)
  | some v =>
    have hall := JsObject.allAt_of_get V k v hf hg
    have hmem := JsObject.get_mem V k v hg
    cases v with
    | str t =>
      rw [collapseFiles_get_nonfile, hg]
      · rfl
      · intro kv hkv hkey g gs hh
        rw [hall kv hkv hkey] at hh
        cases hh
    | num t =>
      rw [collapseFiles_get_nonfile, hg]
      · rfl
      · intro kv hkv hkey g gs hh
        rw [hall kv hkv hkey] at hh
        cases hh
    | files fs =>
      cases hlast : fs.getLast? with
      | none =>
        have hfs : fs = [] := List.getLast?_eq_none_iff.mp hlast
        rw [collapseFiles_get_nonfile, hg]
        · simp [collapsedValue, hlast]
        · intro kv hkv hkey g gs hh
          rw [hall kv hkv hkey, hfs] at hh
          cases hh
      | some last =>
        rw [collapseFiles_get_file V V k fs last hk hlast hall (Or.inl ⟨_, hmem⟩)]
        simp [collapsedValue, hlast]

theorem composeDate_cases (dateParse : String → JsNum) (d : Dom) (formEl : List Nat)
    (values : JsObject) :
    composeDate dateParse d formEl values = values ∨
    ∃ x y, composeDate dateParse d formEl values =
      (values.set "date-ms" x).set "date-dd-mm-yyyy" y := by
  unfold composeDate
  split
  · simp only []
    split
    · exact Or.inr ⟨_, _, rfl⟩
    · exact Or.inl rfl
  · exact Or.inl rfl

theorem composeDate_fire (dateParse : String → JsNum) (d : Dom) (formEl : List Nat)
    (values : JsObject) (day month year : String)
    (hd : namedInputValue d formEl "date-dd" = some (.str day))
    (hm : namedInputValue d formEl "date-mm" = some (.str month))
    (hy : namedInputValue d formEl "date-yyyy" = some (.str year))
    (hd0 : day ≠ "") (hm0 : month ≠ "") (hy0 : year ≠ "") :
    composeDate dateParse d formEl values =
      (values.set "date-ms" (.num (dateParse (year ++ "-" ++ month ++ "-" ++ day)))).set
        "date-dd-mm-yyyy" (.str (day ++ "-" ++ month ++ "-" ++ year)) := by
  unfold namedInputValue at hd hm hy
  unfold composeDate
  cases h1 : findAll d (.tagAttr "input" "name" "date-dd") formEl with
  | nil => simp [h1] at hd
  | cons dd rdd =>
    cases h2 : findAll d (.tagAttr "input" "name" "date-mm") formEl with
    | nil => simp [h2] at hm
    | cons mm rmm =>
      cases h3 : findAll d (.tagAttr "input" "name" "date-yyyy") formEl with
      | nil => simp [h3] at hy
      | cons yy ryy =>
        simp only [h1, List.head?_cons, Option.map_some', Option.some.injEq] at hd
        simp only [h2, List.head?_cons, Option.map_some', Option.some.injEq] at hm
        simp only [h3, List.head?_cons, Option.map_some', Option.some.injEq] at hy
        simp [hd, hm, hy, JsValue.truthy, JsValue.toStr, hd0, hm0, hy0]

theorem composeDate_skip (dateParse : String → JsNum) (d : Dom) (formEl : List Nat)
    (values : JsObject)
    (h : ∃ name ∈ ["date-dd", "date-mm", "date-yyyy"],
      namedInputValue d formEl name = none ∨ namedInputValue d formEl name = some (.str "")) :
    composeDate dateParse d formEl values = values := by
  obtain ⟨name, hname, hv⟩ := h
  unfold namedInputValue at hv
  unfold composeDate
  cases h1 : findAll d (.tagAttr "input" "name" "date-dd") formEl with
  | nil => rfl
  | cons dd rdd =>
    cases h2 : findAll d (.tagAttr "input" "name" "date-mm") formEl with
    | nil => rfl
    | cons mm rmm =>
      cases h3 : findAll d (.tagAttr "input" "name" "date-yyyy") formEl with
      | nil => rfl
      | cons yy ryy =>
        simp only [List.mem_cons, List.mem_singleton, List.not_mem_nil, or_false] at hname
        rcases hname with hn | hn | hn
        · subst hn
          simp only [h1, List.head?_cons, Option.map_some', Option.some.injEq, reduceCtorEq,
            false_or] at hv
          simp [hv, JsValue.truthy]
        · subst hn
          simp only [h2, List.head?_cons, Option.map_some', Option.some.injEq, reduceCtorEq,
            false_or] at hv
          simp [hv, JsValue.truthy]
        · subst hn
          simp only [h3, List.head?_cons, Option.map_some', Option.some.injEq, reduceCtorEq,
            false_or] at hv
          simp [hv, JsValue.truthy]

/-! ## C8 -/

/-- C8: the date rule of `getValues`.  When the inputs named `date-dd`, `date-mm` and
`date-yyyy` all exist with non-empty values `day`, `month`, `year`, the result maps
`date-dd-mm-yyyy` to `day-month-year` and `date-ms` to the date parse of `year-month-day`.
When one of them is missing or empty, the result is the name-to-value mapping of the
form's fields and nothing else: every key other than `__proto__` reads the value of the
last field of that name (a file list replaced by a file path), and reads nothing when no
field has that name; the object has no own entry under `__proto__`. -/
theorem getValues_date_composition (dateParse : String → JsNum) (d : Dom)
    (formEl : List Nat) :
    (∀ day month year : String,
      namedInputValue d formEl "date-dd" = some (.str day) →
      namedInputValue d formEl "date-mm" = some (.str month) →
      namedInputValue d formEl "date-yyyy" = some (.str year) →
      day ≠ "" → month ≠ "" → year ≠ "" →
      ∃ o, getValues dateParse d formEl = some o ∧
        o.get "date-dd-mm-yyyy" = some (.str (day ++ "-" ++ month ++ "-" ++ year)) ∧
        o.get "date-ms" = some (.num (dateParse (year ++ "-" ++ month ++ "-" ++ day)))) ∧
    ((∃ name ∈ ["date-dd", "date-mm", "date-yyyy"],
        namedInputValue d formEl name = none ∨
        namedInputValue d formEl name = some (.str "")) →
      ∃ o, getValues dateParse d formEl = some o ∧
        (∀ k, k ≠ "__proto__" →
          o.get k =
            (lastNamedValue d k (findAll d fieldSelector formEl)).map collapsedValue) ∧
        ¬ o.hasKey "__proto__") := by
  refine ⟨?_, ?_⟩
  · intro day month year hd hm hy hd0 hm0 hy0
    refine ⟨_, rfl, ?_, ?_⟩
    · rw [composeDate_fire dateParse d formEl _ day month year hd hm hy hd0 hm0 hy0]
      rw [collapseFiles_get_nonfile]
      · exact JsObject.get_set_same _ _ _ (by decide)
      · intro kv hkv hk g gs hgs
        have := JsObject.set_allAt _ "date-dd-mm-yyyy"
          (.str (day ++ "-" ++ month ++ "-" ++ year)) (by decide) kv hkv hk
        rw [this] at hgs
        cases hgs
    · rw [composeDate_fire dateParse d formEl _ day month year hd hm hy hd0 hm0 hy0]
      rw [collapseFiles_get_nonfile]
      · rw [JsObject.get_set_other _ _ _ _ (by decide)]
        exact JsObject.get_set_same _ _ _ (by decide)
      · intro kv hkv hk g gs hgs
        have hne : kv.1 ≠ "date-dd-mm-yyyy" := by
          rw [hk]
          decide
        have hmem := (JsObject.mem_set_other _ _ _ kv hne).mp hkv
        have := JsObject.set_allAt _ "date-ms"
          (.num (dateParse (year ++ "-" ++ month ++ "-" ++ day))) (by decide) kv hmem hk
        rw [this] at hgs
        cases hgs
  · intro h
    have hskip : getValues dateParse d formEl =
        some (collapseFiles (collectValues d [] (findAll d fieldSelector formEl))
          (collectValues d [] (findAll d fieldSelector formEl))) := by
      unfold getValues
      simp only [composeDate_skip dateParse d formEl _ h]
    have hnil : JsObject.functional ([] : JsObject) := by
      intro kv1 h1
      simp at h1
    have hnoproto : ¬ JsObject.hasKey ([] : JsObject) "__proto__" := by
      rintro ⟨x, hx⟩
      simp at hx
    refine ⟨_, hskip, ?_, ?_⟩
    · intro k hk
      rw [collapseFiles_get _ k (collectValues_functional d [] _ hnil) hk,
        collectValues_get d [] _ k hk]
      cases lastNamedValue d k (findAll d fieldSelector formEl) <;> rfl
    · intro hh
      have hp := collectValues_noProto d [] (findAll d fieldSelector formEl) hnoproto
      rcases collapseFiles_hasKey _ _ "__proto__" hh with h1 | h1
      · exact hp h1
      · exact hp h1

/-- Witness for C8: `09`, `04`, `2024` give `09-04-2024` and the parse of `2024-04-09`;
a form without date inputs and two fields named `title` maps `title` to the value of the
second and has no `date-ms`. -/
theorem getValues_date_composition_witness :
    (∃ o, getValues sampleDateParse dateFormDoc [0] = some o ∧
      o.get "date-dd-mm-yyyy" = some (.str "09-04-2024") ∧
      o.get "date-ms" = some (.num (sampleDateParse "2024-04-09"))) ∧
    (∃ o, getValues sampleDateParse titleFormDoc [0] = some o ∧
      o.get "title" = some (.str "Emma") ∧ o.get "date-ms" = none) := by
  refine ⟨(getValues_date_composition sampleDateParse dateFormDoc [0]).1 "09" "04" "2024"
    (by decide) (by decide) (by decide) (by decide) (by decide) (by decide), ?_⟩
  obtain ⟨o, ho, hmap, _⟩ := (getValues_date_composition sampleDateParse titleFormDoc [0]).2
    ⟨"date-dd", by decide, Or.inl (by decide)⟩
  refine ⟨o, ho, ?_, ?_⟩
  · rw [hmap "title" (by decide)]
    decide
  · rw [hmap "date-ms" (by decide)]
    decide

/-! ## C9 -/

/-- The file collapse in general: for a field named `n` (not `__proto__`) whose value is
a file list with at least one file, `n` being shared with no other field of the form and
differing from the two synthetic keys, the result maps `n` to the path of the last file
of the list. -/
theorem getValues_file_collapse (dateParse : String → JsNum) (d : Dom) (formEl : List Nat)
    (f : Nat) (n : String) (fs : List File) (last : File)
    (hf : f ∈ findAll d fieldSelector formEl)
    (hn : elName d f = some n)
    (hv : elValue d f = .files fs)
    (hlast : fs.getLast? = some last)
    (huniq : ∀ g ∈ findAll d fieldSelector formEl, propertyKey (elName d g) = n → g = f)
    (hk0 : n ≠ "__proto__") (hk1 : n ≠ "date-ms") (hk2 : n ≠ "date-dd-mm-yyyy") :
    ∃ o, getValues dateParse d formEl = some o ∧ o.get n = some (.str last.path) := by
  refine ⟨_, rfl, ?_⟩
  have hkey : propertyKey (elName d f) = n := by rw [hn]; rfl
  have hcol := collectValues_allAt d [] (findAll d fieldSelector formEl) n f (.files fs)
    hv hkey hk0 huniq (Or.inl hf)
  have hdate : JsObject.allAt (composeDate dateParse d formEl
        (collectValues d [] (findAll d fieldSelector formEl))) n (.files fs) ∧
      JsObject.hasKey (composeDate dateParse d formEl
        (collectValues d [] (findAll d fieldSelector formEl))) n := by
    rcases composeDate_cases dateParse d formEl
      (collectValues d [] (findAll d fieldSelector formEl)) with h | ⟨x, y, h⟩
    · rw [h]
      exact hcol
    · rw [h]
      exact ⟨JsObject.set_other_allAt _ _ n _ _ hk2
          (JsObject.set_other_allAt _ _ n _ _ hk1 hcol.1),
        JsObject.set_other_hasKey _ _ n _ hk2
          (JsObject.set_other_hasKey _ _ n _ hk1 hcol.2)⟩
  exact collapseFiles_get_file _ _ n fs last hk0 hlast hdate.1 (Or.inl hdate.2)

/-- C9 fails on the code: the field `photo` holds the files `a.png` and `b.png`, in this
order, and the result maps `photo` to the path of `b.png`, the last file, not to the
path of the first file `a.png`. -/
theorem getValues_multi_file_takes_last :
    elName twoFilesDoc 1 = some "photo" ∧
    elValue twoFilesDoc 1 =
      .files [⟨"a.png", "/pictures/a.png"⟩, ⟨"b.png", "/pictures/b.png"⟩] ∧
    (getValues sampleDateParse twoFilesDoc [0]).bind (fun o => o.get "photo") =
      some (.str "/pictures/b.png") ∧
    (getValues sampleDateParse twoFilesDoc [0]).bind (fun o => o.get "photo") ≠
      some (.str "/pictures/a.png") := by
  decide

/-! ## C10 -/

/-- C10, as the code has it: on an empty scope `getValues` returns an object without
entries, and it returns `null` for no input at all. -/
theorem getValues_empty_scope (dateParse : String → JsNum) (d : Dom) :
    getValues dateParse d [] = some [] ∧
    ∀ formEl, getValues dateParse d formEl ≠ none := by
  refine ⟨rfl, ?_⟩
  intro formEl h
  unfold getValues at h
  cases h

/-- C10 as stated fails: on an empty scope the result is the empty object, not `null`. -/
theorem getValues_empty_scope_counterexample :
    getValues sampleDateParse dateFormDoc [] = some [] ∧
    getValues sampleDateParse dateFormDoc [] ≠ none := by
  decide

/-! ## C12 -/

theorem Element.removeClass_hasClass_self (c : String) (e : Element) :
    (e.removeClass c).hasClass c = false := by
  unfold Element.removeClass Element.hasClass
  simp

theorem Element.removeClass_hasClass_other (c c2 : String) (e : Element) (h : c2 ≠ c) :
    (e.removeClass c).hasClass c2 = e.hasClass c2 := by
  unfold Element.removeClass Element.hasClass
  simp only [List.contains_eq_any_beq]
  induction e.classes with
  | nil => rfl
  | cons x xs ih =>
    by_cases hx : x = c
    · have hx2 : (c2 == x) = false := by
        simp only [beq_eq_false_iff_ne, ne_eq]
        intro hh
        exact h (hh.trans hx)
      have hx3 : (x != c) = false := by simp [hx]
      simp only [List.filter, hx3, List.any_cons, hx2, Bool.false_or]
      exact ih
    · have hx3 : (x != c) = true := by simpa using hx
      simp only [List.filter, hx3, List.any_cons]
      rw [ih]

theorem Element.removeBlur_hasClass (h : Nat) (c : String) (e : Element) :
    (e.removeBlur h).hasClass c = e.hasClass c := rfl

theorem parentOf_modifyAt (g : Element → Element) (d : Dom) (i j : Nat)
    (hg : ∀ e, (g e).parent = e.parent) : parentOf (modifyAt g d i) j = parentOf d j := by
  unfold parentOf
  rw [modifyAt_getElem?]
  by_cases hji : j = i
  · simp only [hji, if_true]
    cases d[i]? with
    | none => rfl
    | some e => simp [hg]
  · simp only [hji, if_false]

theorem elMatches_modifyAt (g : Element → Element) (d : Dom) (sel : Selector) (i j : Nat)
    (hg : ∀ e, sel.matchesEl (g e) = sel.matchesEl e) :
    elMatches (modifyAt g d i) sel j = elMatches d sel j := by
  unfold elMatches
  rw [modifyAt_getElem?]
  by_cases hji : j = i
  · simp only [hji, if_true]
    cases d[i]? with
    | none => rfl
    | some e => simp [hg]
  · simp only [hji, if_false]

theorem closestAux_congr (d d2 : Dom) (sel : Selector)
    (hm : ∀ i, elMatches d2 sel i = elMatches d sel i)
    (hp : ∀ i, parentOf d2 i = parentOf d i) (fuel i : Nat) :
    closestAux d2 sel fuel i = closestAux d sel fuel i := by
  induction fuel generalizing i with
  | zero => rfl
  | succ n ih =>
    unfold closestAux
    rw [hm, hp]
    cases parentOf d i with
    | none => rfl
    | some p => simp only [ih]

theorem closestAux_exists (d : Dom) (sel1 sel2 : Selector) (fuel i w : Nat)
    (h : closestAux d sel1 fuel i = some w) (hw : elMatches d sel2 w = true) :
    ∃ a, closestAux d sel2 fuel i = some a := by
  induction fuel generalizing i with
  | zero => simp [closestAux] at h
  | succ n ih =>
    unfold closestAux at h ⊢
    by_cases hm2 : elMatches d sel2 i = true
    · exact ⟨i, by simp [hm2]⟩
    · simp only [hm2, Bool.false_eq_true, if_false]
      by_cases hm1 : elMatches d sel1 i = true
      · simp only [hm1, if_true, Option.some.injEq] at h
        rw [h] at hm2
        exact absurd hw hm2
      · simp only [hm1, Bool.false_eq_true, if_false] at h
        cases hp : parentOf d i with
        | none => simp [hp] at h
        | some p =>
          simp only [hp] at h
          exact ih p h

theorem validate_single_field (d : Dom) (h f : Nat)
    (hform : elMatches d (.tag "form") f = false) :
    validate d h [f] =
      ((validateField d h f).1, some (if (validateField d h f).2 then false else true)) := by
  have hg : gatherFields d [] [f] = (d, [f]) := by
    simp only [gatherFields, hform, Bool.false_eq_true, if_false, List.nil_append]
  unfold validate
  rw [hg]
  rfl

theorem blurHandler_fires (d : Dom) (h f a : Nat) (e : Element) (he : d[f]? = some e)
    (ht : e.fieldValue.truthy = true)
    (ha : closest d (.cls validationErrorClassName) f = some a) :
    validationErrorOnBlurHandler d h f =
      modifyAt (Element.removeBlur h)
        (modifyAt (Element.removeClass validationErrorClassName) d a) f := by
  unfold validationErrorOnBlurHandler
  simp [he, ht, ha]

theorem fieldValue_textual (e : Element)
    (hkind : e.tag = "textarea" ∨ (e.tag = "input" ∧ e.attr "type" = some "text")) :
    e.fieldValue = .str e.value := by
  unfold Element.fieldValue
  rcases hkind with hk | ⟨hk, ht⟩
  · simp [hk]
  · simp [hk, ht]

theorem blurred_field (d : Dom) (h f a : Nat) (e : Element) (he : d[f]? = some e) :
    ∃ e2, (modifyAt (Element.removeBlur h)
        (modifyAt (Element.removeClass validationErrorClassName) d a) f)[f]? = some e2 ∧
      e2.tag = e.tag ∧ e2.attrs = e.attrs ∧ e2.value = e.value ∧
      e2.hasClass requiredClassName = e.hasClass requiredClassName ∧ h ∉ e2.blur := by
  rw [modifyAt_getElem?, modifyAt_getElem?]
  simp only [if_true]
  by_cases hfa : f = a
  · refine ⟨(e.removeClass validationErrorClassName).removeBlur h, ?_, rfl, rfl, rfl, ?_, ?_⟩
    · subst hfa
      simp only [if_true, he, Option.map_some']
    · rw [Element.removeBlur_hasClass]
      exact Element.removeClass_hasClass_other _ _ e (by decide)
    · simp [Element.removeBlur, Element.removeClass]
  · refine ⟨e.removeBlur h, ?_, rfl, rfl, rfl, rfl, ?_⟩
    · simp [hfa, he]
    · simp [Element.removeBlur]

/-- C12: the blur handler and `validate` disagree on white space.  For a required text
input or textarea whose wrapper `validate` has marked with the error class: a blur while
the value is non-empty but trims to the empty string removes the error class from the
nearest element carrying it and removes the handler, and a `validate` call on the field
right after it returns `false` with the wrapper carrying the error class again; a blur
while the value is the empty string changes nothing. -/
theorem blurHandler_whitespace_disagreement (d : Dom) (h h2 f w : Nat) (e : Element)
    (he : d[f]? = some e)
    (hkind : e.tag = "textarea" ∨ (e.tag = "input" ∧ e.attr "type" = some "text"))
    (hreq : e.hasClass requiredClassName = true)
    (hw : closest d (.cls "field") f = some w)
    (herr : hasClass d w validationErrorClassName = true) :
    (e.value ≠ "" → jsTrim e.value = "" →
      ∃ a, closest d (.cls validationErrorClassName) f = some a ∧
        hasClass (validationErrorOnBlurHandler d h f) a validationErrorClassName = false ∧
        h ∉ blurListeners (validationErrorOnBlurHandler d h f) f ∧
        (validate (validationErrorOnBlurHandler d h f) h2 [f]).2 = some false ∧
        hasClass (validate (validationErrorOnBlurHandler d h f) h2 [f]).1 w
          validationErrorClassName = true) ∧
    (e.value = "" → validationErrorOnBlurHandler d h f = d) := by
  have hfv := fieldValue_textual e hkind
  refine ⟨?_, ?_⟩
  · intro hne htrim
    have hwm : elMatches d (.cls validationErrorClassName) w = true := by
      unfold elMatches
      unfold hasClass at herr
      cases hd : d[w]? with
      | none => simp [hd] at herr
      | some x =>
        simp only [hd] at herr
        exact herr
    obtain ⟨a, ha⟩ := closestAux_exists d (.cls "field") (.cls validationErrorClassName)
      (f + 1) f w hw hwm
    have ha2 : closest d (.cls validationErrorClassName) f = some a := ha
    have htr : e.fieldValue.truthy = true := by
      rw [hfv]
      simp [JsValue.truthy, hne]
    rw [blurHandler_fires d h f a e he htr ha2]
    obtain ⟨e2, he2, htag, hattrs, hval, hreq2, hblur⟩ := blurred_field d h f a e he
    have hkind2 : e2.tag = "textarea" ∨ e2.tag = "select" ∨
        (e2.tag = "input" ∧ e2.attr "type" = some "text") := by
      rcases hkind with hk | ⟨hk, ht⟩
      · exact Or.inl (htag.trans hk)
      · refine Or.inr (Or.inr ⟨htag.trans hk, ?_⟩)
        unfold Element.attr at ht ⊢
        rw [hattrs]
        exact ht
    have hinv : fieldIsValid e2 = false := by
      rw [fieldIsValid_text e2 hkind2, hval]
      exact htrim
    have hclosest : closest (modifyAt (Element.removeBlur h)
        (modifyAt (Element.removeClass validationErrorClassName) d a) f) (.cls "field") f
        = some w := by
      unfold closest at hw ⊢
      rw [closestAux_congr d _ (.cls "field") ?_ ?_]
      · exact hw
      · intro i
        rw [elMatches_modifyAt (Element.removeBlur h) _ (.cls "field") f i
          (fun x => Element.removeBlur_hasClass h "field" x)]
        exact elMatches_modifyAt (Element.removeClass validationErrorClassName) d
          (.cls "field") a i
          (fun x => Element.removeClass_hasClass_other validationErrorClassName "field" x
            (by decide))
      · intro i
        rw [parentOf_modifyAt (Element.removeBlur h) _ f i (fun _ => rfl)]
        exact parentOf_modifyAt (Element.removeClass validationErrorClassName) d a i
          (fun _ => rfl)
    have hform : elMatches (modifyAt (Element.removeBlur h)
        (modifyAt (Element.removeClass validationErrorClassName) d a) f) (.tag "form") f
        = false := by
      unfold elMatches
      rw [he2]
      simp only [Selector.matchesEl, htag]
      rcases hkind with hk | ⟨hk, _⟩ <;> rw [hk] <;> decide
    refine ⟨a, ha2, ?_, ?_, ?_, ?_⟩
    · rw [hasClass_modifyAt_same _ _ _ _ _ (fun x => Element.removeBlur_hasClass h _ x)]
      unfold hasClass
      rw [modifyAt_getElem?]
      simp only [if_true]
      cases d[a]? with
      | none => rfl
      | some x => simp [Element.removeClass_hasClass_self]
    · unfold blurListeners
      rw [he2]
      exact hblur
    · rw [validate_single_field _ h2 f hform, validateField_snd]
      have hfails : fieldFails (modifyAt (Element.removeBlur h)
          (modifyAt (Element.removeClass validationErrorClassName) d a) f) f = true := by
        unfold fieldFails detectedInvalid
        have hr : hasClass (modifyAt (Element.removeBlur h)
            (modifyAt (Element.removeClass validationErrorClassName) d a) f) f
            requiredClassName = true := by
          unfold hasClass
          simp only [he2]
          rw [hreq2]
          exact hreq
        simp [hr, he2, hinv]
      simp [hfails]
    · rw [validate_single_field _ h2 f hform]
      simp only []
      cases hwB : hasClass (modifyAt (Element.removeBlur h)
          (modifyAt (Element.removeClass validationErrorClassName) d a) f) w
          validationErrorClassName
      · exact (validateField_marks_iff _ h2 f w e2 he2 (hreq2.trans hreq) hclosest hwB).mpr hinv
      · exact hasClass_validateField_mono _ h2 f w _ hwB
  · intro hv
    unfold validationErrorOnBlurHandler
    simp [he, hfv, hv, JsValue.truthy]

/-- Witness for C12: two spaces in a marked text input clear the mark on blur, and the
next `validate` fails again. -/
theorem blurHandler_whitespace_disagreement_witness :
    ∃ a, closest markedWhitespaceDoc (.cls validationErrorClassName) 2 = some a ∧
      hasClass (validationErrorOnBlurHandler markedWhitespaceDoc 7 2) a
        validationErrorClassName = false ∧
      7 ∉ blurListeners (validationErrorOnBlurHandler markedWhitespaceDoc 7 2) 2 ∧
      (validate (validationErrorOnBlurHandler markedWhitespaceDoc 7 2) 8 [2]).2 = some false ∧
      hasClass (validate (validationErrorOnBlurHandler markedWhitespaceDoc 7 2) 8 [2]).1 1
        validationErrorClassName = true :=
  (blurHandler_whitespace_disagreement markedWhitespaceDoc 7 8 2 1
    { mkEl "input" ["req"] [("type", "text")] "  " (some 1) with blur := [7] }
    (by decide) (Or.inr ⟨by decide, by decide⟩) (by decide) (by decide) (by decide)).1
    (by decide) (by decide)

/-! ## C11 -/

/-- On a form with one field of each kind other than `<select multiple>`, a second
`prepare` changes nothing. -/
theorem prepare_twice_plainFieldsForm :
    prepare "Choose file" (fun path => path) []
        (prepare "Choose file" (fun path => path) [] plainFieldsForm) =
      prepare "Choose file" (fun path => path) [] plainFieldsForm := by
  rfl

/-- C11 fails on the code: a `<select multiple>` is wrapped in `.form-multi-select`, which
the guard `closest('.form-select')` does not see, so a second `prepare` wraps the wrapped
select once more and the tree differs from the one after the first call. -/
theorem prepare_twice_wraps_multiselect (chooseFile : String) (normPath : String → String) :
    prepare chooseFile normPath [] multiSelectForm =
      .el "form" [] []
        [.el "div" ["field", "form-multi-select"] []
          [.el "div" ["select-outer"] []
            [.el "select" [] [("multiple", ""), ("name", "genres")] []]]] ∧
    prepare chooseFile normPath [] (prepare chooseFile normPath [] multiSelectForm) =
      .el "form" [] []
        [.el "div" ["field", "form-multi-select"] []
          [.el "div" ["select-outer"] []
            [.el "div" ["field", "form-multi-select"] []
              [.el "div" ["select-outer"] []
                [.el "select" [] [("multiple", ""), ("name", "genres")] []]]]]] ∧
    countClass "form-multi-select" (prepare chooseFile normPath [] multiSelectForm) = 1 ∧
    countClass "form-multi-select"
      (prepare chooseFile normPath [] (prepare chooseFile normPath [] multiSelectForm)) = 2 ∧
    prepare chooseFile normPath [] (prepare chooseFile normPath [] multiSelectForm) ≠
      prepare chooseFile normPath [] multiSelectForm := by
  have h1 : prepare chooseFile normPath [] multiSelectForm =
      .el "form" [] []
        [.el "div" ["field", "form-multi-select"] []
          [.el "div" ["select-outer"] []
            [.el "select" [] [("multiple", ""), ("name", "genres")] []]]] := by
    rfl
  have h2 : prepare chooseFile normPath [] (prepare chooseFile normPath [] multiSelectForm) =
      .el "form" [] []
        [.el "div" ["field", "form-multi-select"] []
          [.el "div" ["select-outer"] []
            [.el "div" ["field", "form-multi-select"] []
              [.el "div" ["select-outer"] []
                [.el "select" [] [("multiple", ""), ("name", "genres")] []]]]]] := by
    rfl
  refine ⟨h1, h2, ?_, ?_, ?_⟩
  · rw [h1]
    decide
  · rw [h2]
    decide
  · intro h
    have hc := congrArg (countClass "form-multi-select") h
    rw [h2, h1] at hc
    revert hc
    decide

end CardinalForms
